import Mathlib

/-!
The record buffer and the record assembler of reporter-systemd-journal.

A shallow embedding of `src/plugins/reporter-systemd-journal.c`.

* A C string is the list of its characters before the terminating NUL (`CStr`).
* A pointer that the code tests against `NULL` is an `Option`.
* The slot array `msg_c->data` is a list with one entry per allocated slot;
  a slot that was never written is `none`.
* The counters `allocated` and `used` (C `unsigned`) are natural numbers, with
  no wrap-around at `2^32`: they count slots of a live allocation, each
  holding a separately allocated string.
* A step with undefined behaviour in C (a slot access outside the allocation,
  the upper-casing scan running past the terminator) is a `Fault`; the
  functions return `Except Fault _`.
* `toupper` is the table of the "C" locale. The program runs under the locale
  of its environment (`setlocale(LC_ALL, "")`, line 203); the definitions with
  the suffix `_l` take the `toupper` table of that locale as a parameter, and
  the ones without it are their instance at the "C" table.
* `msg_content_free` is given by the list of its memory events (slot accesses
  and `free` calls); an access outside the allocation is recorded there with
  the value `none`.
* The parts of `main` that are embedded (option handling, the executable
  element) stop with a `main_exit` where the program ends or leaves defined
  behaviour.
-/

namespace Journal

/-- The characters of a C string, terminator excluded. -/
abbrev CStr := List Char

/-- Steps whose behaviour C leaves undefined. -/
inductive Fault where
  | scan_overrun
  | slot_out_of_range
deriving DecidableEq

instance instDecEqExcept {ε α : Type} [DecidableEq ε] [DecidableEq α] :
    DecidableEq (Except ε α)
  | .ok a, .ok b =>
      if h : a = b then isTrue (by rw [h]) else isFalse (fun hh => h (Except.ok.inj hh))
  | .error a, .error b =>
      if h : a = b then isTrue (by rw [h]) else isFalse (fun hh => h (Except.error.inj hh))
  | .ok _, .error _ => isFalse (fun hh => Except.noConfusion hh)
  | .error _, .ok _ => isFalse (fun hh => Except.noConfusion hh)

/-- `toupper` of the C library in the "C" locale: the letters `a`..`z` are
moved to `A`..`Z`, every other character is returned as it is. -/
def toupper (c : Char) : Char :=
  if 'a' ≤ c ∧ c ≤ 'z' then Char.ofNat (c.toNat - 32) else c

/-- `struct iovec`: the string a slot points to and its length. -/
structure iovec where
  iov_base : CStr
  iov_len : Nat
deriving DecidableEq

/-- `struct msg_content` (lines 28-34). `data` has one entry per slot of the
allocation it points to. -/
structure msg_content_t where
  allocated : Nat
  used : Nat
  data : List (Option iovec)
deriving DecidableEq

/-- `xmalloc(n * sizeof(struct iovec))`: `n` slots, none of them written. -/
def xmalloc (n : Nat) : List (Option iovec) := List.replicate n none

/-- `xrealloc(data, n * sizeof(struct iovec))`: the old slots up to the new size
are kept, slots beyond the old size are not written. -/
def xrealloc (data : List (Option iovec)) (n : Nat) : List (Option iovec) :=
  data.take n ++ List.replicate (n - data.length) none

/-- `msg_content_new` (lines 36-48). The result is never `NULL`. -/
def msg_content_new : msg_content_t :=
  let init_count := 2
  msg_content_t.mk init_count 0 (xmalloc init_count)

/-- `msg_content_get_data` (lines 50-56). -/
def msg_content_get_data (msg_c : Option msg_content_t) : Option (List (Option iovec)) :=
  match msg_c with
  | none => none
  | some m => some m.data

/-- `msg_content_get_size` (lines 58-64). -/
def msg_content_get_size (msg_c : Option msg_content_t) : Nat :=
  match msg_c with
  | none => 0
  | some m => m.used

/-- `xasprintf("%s%s=%s", prefix, key, value)` (line 69). -/
def xasprintf_field (pfx key value : CStr) : CStr :=
  pfx ++ key ++ '=' :: value

/-- The loop of line 70: `for (char *c = _s; *c != '='; ++c) *c = toupper(*c);`.
Each character is tested before it is overwritten. On a string without `=`
the loop walks over the terminator and leaves the allocation. -/
def upper_scan : CStr → Except Fault CStr
  | [] => .error .scan_overrun
  | c :: cs =>
      if c = '=' then .ok (c :: cs)
      else
        match upper_scan cs with
        | .ok r => .ok (toupper c :: r)
        | .error e => .error e

/-- `IOVEC_ADD_FIELD` (lines 66-73), as the value stored into the slot. -/
def IOVEC_ADD_FIELD (key value pfx : CStr) : Except Fault iovec :=
  match upper_scan (xasprintf_field pfx key value) with
  | .ok _s => .ok (iovec.mk _s _s.length)
  | .error e => .error e

/-- `msg_content_add_ext` (lines 75-91). The result is the object `msg_c`
points to after the call (`none` for a `NULL` pointer). -/
def msg_content_add_ext (msg_c : Option msg_content_t) (key value pfx : CStr) :
    Except Fault (Option msg_content_t) :=
  match msg_c with
  | none => .ok none
  | some m =>
      let m1 : msg_content_t :=
        if m.used ≥ m.allocated then
          msg_content_t.mk (m.allocated + 5) m.used (xrealloc m.data (m.allocated + 5))
        else m
      if m1.used < m1.data.length then
        match IOVEC_ADD_FIELD key value pfx with
        | .ok iov => .ok (some (msg_content_t.mk m1.allocated (m1.used + 1)
                                  (m1.data.set m1.used (some iov))))
        | .error e => .error e
      else .error .slot_out_of_range

/-- `msg_content_add` (lines 93-96). -/
def msg_content_add (msg_c : Option msg_content_t) (key value : CStr) :
    Except Fault (Option msg_content_t) :=
  msg_content_add_ext msg_c key value []

/-- The representation invariant of a buffer: `data` points to `allocated`
slots and `used` of them are taken. -/
def msg_content_inv (m : msg_content_t) : Prop :=
  m.data.length = m.allocated ∧ m.used ≤ m.allocated

instance (m : msg_content_t) : Decidable (msg_content_inv m) := by
  unfold msg_content_inv; infer_instance

/-- What `sd_journal_sendv(msg_content_get_data(msg_c), msg_content_get_size(msg_c))`
(line 320) is given: the first `size` slots of `data`. -/
def sent_records (msg_c : Option msg_content_t) : List (Option iovec) :=
  match msg_content_get_data msg_c with
  | none => []
  | some d => d.take (msg_content_get_size msg_c)

/-- A sequence of `msg_content_add_ext` calls on one buffer, each given as
`(key, value, prefix)`. -/
def msg_content_add_all (msg_c : Option msg_content_t) :
    List (CStr × CStr × CStr) → Except Fault (Option msg_content_t)
  | [] => .ok msg_c
  | (key, value, pfx) :: rest =>
      match msg_content_add_ext msg_c key value pfx with
      | .ok msg_c1 => msg_content_add_all msg_c1 rest
      | .error e => .error e

/-! The record assembler -/

/-- `DEFAULT_MESSAGE_ID` (line 23). -/
def DEFAULT_MESSAGE_ID : CStr := "1909f1302a5240c895d7c05566100dce".toList

/-- `DUMP_NONE = 1 << 0` (line 115). -/
def DUMP_NONE : Nat := 1 <<< 0
/-- `DUMP_ESSENTIAL = 1 << 1` (line 116). -/
def DUMP_ESSENTIAL : Nat := 1 <<< 1
/-- `DUMP_FULL = 1 << 2` (line 117). -/
def DUMP_FULL : Nat := 1 <<< 2

/-- The constants of `internal_libreport.h` the file uses; the header is not
part of the sources, so their values are parameters of the embedding. -/
structure libreport_h where
  FILENAME_EXECUTABLE : CStr
  FILENAME_PID : CStr
  FILENAME_EXCEPTION_TYPE : CStr
  FILENAME_REASON : CStr
  FILENAME_CRASH_FUNCTION : CStr
  FILENAME_CMDLINE : CStr
  FILENAME_COMPONENT : CStr
  FILENAME_PKG_NAME : CStr
  FILENAME_PKG_VERSION : CStr
  FILENAME_PKG_RELEASE : CStr
  FILENAME_PKG_FINGERPRINT : CStr
  FILENAME_REPORTED_TO : CStr
  FILENAME_TYPE : CStr
  FILENAME_UID : CStr
  CD_FLAG_TXT : Nat

/-- Modelled from the spec: the item of a problem-data store, "a field's
content plus a flag indicating whether it is text or binary" (`struct
problem_item` is declared outside the sources). -/
structure problem_item where
  content : CStr
  flags : Nat
deriving DecidableEq

/-- Modelled from the spec: the problem-data store, "an associative structure
from field name to item descriptor", read only through enumerate-all-field-names
and lookup-by-name (`problem_data_t` is declared outside the sources). -/
structure problem_data_t where
  all_elements : List CStr
  item_or_NULL : CStr → Option problem_item

/-- Modelled from the spec: enumerate-all-field-names. -/
def problem_data_get_all_elements (problem_data : problem_data_t) : List CStr :=
  problem_data.all_elements

/-- Modelled from the spec: the item stored under a name, `NULL` when there is none. -/
def problem_data_get_item_or_NULL (problem_data : problem_data_t) (key : CStr) :
    Option problem_item :=
  problem_data.item_or_NULL key

/-- Modelled from the spec: get-content-by-name, `NULL` when the store has no
item under the name. -/
def problem_data_get_content_or_NULL (problem_data : problem_data_t) (key : CStr) :
    Option CStr :=
  match problem_data.item_or_NULL key with
  | none => none
  | some item => some item.content

/-- Modelled from the spec: the rendered report, "summary + optional
description" (`problem_report_t` is declared outside the sources): the summary
is a string, the description may be `NULL`. -/
structure problem_report_t where
  summary : CStr
  description : Option CStr
deriving DecidableEq

/-- Modelled from the spec: the summary of a report. -/
def problem_report_get_summary (pr : problem_report_t) : CStr := pr.summary

/-- Modelled from the spec: the description of a report. -/
def problem_report_get_description (pr : problem_report_t) : Option CStr := pr.description

/-- `fields_default` (lines 121-126), without the terminating `NULL`. -/
def fields_default (K : libreport_h) : List CStr :=
  [K.FILENAME_EXECUTABLE, K.FILENAME_PID, K.FILENAME_EXCEPTION_TYPE]

/-- `fields_essential` (lines 128-141), without the terminating `NULL`. -/
def fields_essential (K : libreport_h) : List CStr :=
  [K.FILENAME_REASON, K.FILENAME_CRASH_FUNCTION, K.FILENAME_CMDLINE, K.FILENAME_COMPONENT,
   K.FILENAME_PKG_NAME, K.FILENAME_PKG_VERSION, K.FILENAME_PKG_RELEASE,
   K.FILENAME_PKG_FINGERPRINT, K.FILENAME_REPORTED_TO, K.FILENAME_TYPE, K.FILENAME_UID]

/-- `msg_content_add_fields` (lines 143-154): the loop over `fields`. -/
def msg_content_add_fields (msg_c : Option msg_content_t) (problem_data : problem_data_t) :
    List CStr → Except Fault (Option msg_content_t)
  | [] => .ok msg_c
  | field :: fields =>
      match problem_data_get_content_or_NULL problem_data field with
      | some value =>
          match msg_content_add_ext msg_c field value "PROBLEM_".toList with
          | .ok msg_c1 => msg_content_add_fields msg_c1 problem_data fields
          | .error e => .error e
      | none => msg_content_add_fields msg_c problem_data fields

/-- The loop of lines 186-192 over the elements of the store. -/
def msg_content_add_elements (K : libreport_h) (msg_c : Option msg_content_t)
    (problem_data : problem_data_t) : List CStr → Except Fault (Option msg_content_t)
  | [] => .ok msg_c
  | elem :: next =>
      match problem_data_get_item_or_NULL problem_data elem with
      | some item =>
          if item.flags &&& K.CD_FLAG_TXT ≠ 0 then
            match msg_content_add_ext msg_c elem item.content "PROBLEM_".toList with
            | .ok msg_c1 => msg_content_add_elements K msg_c1 problem_data next
            | .error e => .error e
          else msg_content_add_elements K msg_c problem_data next
      | none => msg_content_add_elements K msg_c problem_data next

/-- `create_journal_message` (lines 156-196). -/
def create_journal_message (K : libreport_h) (problem_data : problem_data_t)
    (pr : problem_report_t) (msg_id : Option CStr) (dump_opts : Nat) :
    Except Fault (Option msg_content_t) :=
  let msg_c := some msg_content_new
  match msg_content_add msg_c "MESSAGE".toList (problem_report_get_summary pr) with
  | .error e => .error e
  | .ok msg_c =>
  match msg_content_add msg_c "MESSAGE_ID".toList
      (match msg_id with
       | some id => id
       | none => DEFAULT_MESSAGE_ID) with
  | .error e => .error e
  | .ok msg_c =>
  match msg_content_add msg_c "PRIORITY".toList "2".toList with
  | .error e => .error e
  | .ok msg_c =>
  let description : Option CStr :=
    match problem_report_get_description pr with
    | some d => some ('\n' :: d)
    | none => none
  match msg_content_add msg_c "PROBLEM_REPORT".toList
      (match description with
       | some d => d
       | none => []) with
  | .error e => .error e
  | .ok msg_c =>
  if dump_opts &&& DUMP_FULL = 0 then
    match msg_content_add_fields msg_c problem_data (fields_default K) with
    | .error e => .error e
    | .ok msg_c =>
        if dump_opts &&& DUMP_ESSENTIAL ≠ 0 then
          msg_content_add_fields msg_c problem_data (fields_essential K)
        else .ok msg_c
  else
    msg_content_add_elements K msg_c problem_data
      (problem_data_get_all_elements problem_data)

/-- Modelled from the spec: the field names of the default and the essential
set as the spec lists them, and a text flag; an instance of the constants
used to evaluate the code on concrete stores. -/
def spec_names : libreport_h :=
  libreport_h.mk "executable".toList "pid".toList "exception-type".toList
    "reason".toList "crash-function".toList "cmdline".toList "component".toList
    "package-name".toList "package-version".toList "package-release".toList
    "package-fingerprint".toList "reported-to".toList "type".toList "uid".toList 2

/-- A store given by a list of `(name, item)` pairs: the names are enumerated
in list order and a name is looked up at its first pair. -/
def store_of (l : List (CStr × problem_item)) : problem_data_t :=
  problem_data_t.mk (l.map (fun p => p.1))
    (fun key => (l.find? (fun p => p.1 = key)).map (fun p => p.2))

/-- The result of the scan of line 70 on a string that holds an `=`: the
characters before the first `=` upper-cased, the rest as it was. -/
def upper_key : CStr → CStr
  | [] => []
  | c :: cs => if c = '=' then c :: cs else toupper c :: upper_key cs

/-- A written slot holding the string `s`: `iov_base = s`, `iov_len = strlen(s)`. -/
def slot (s : CStr) : Option iovec := some (iovec.mk s s.length)

/-- The string an append of `(key, value, prefix)` stores. -/
def field_string (key value pfx : CStr) : CStr :=
  upper_key (xasprintf_field pfx key value)

/-- The strings `msg_content_add_fields` stores for the names of `fields`. -/
def fields_strings (problem_data : problem_data_t) (fields : List CStr) : List CStr :=
  fields.filterMap (fun field =>
    match problem_data_get_content_or_NULL problem_data field with
    | some value => some (field_string field value "PROBLEM_".toList)
    | none => none)

/-- The strings the loop of lines 186-192 stores for the names of `elems`. -/
def elements_strings (K : libreport_h) (problem_data : problem_data_t)
    (elems : List CStr) : List CStr :=
  elems.filterMap (fun elem =>
    match problem_data_get_item_or_NULL problem_data elem with
    | some item =>
        if item.flags &&& K.CD_FLAG_TXT ≠ 0 then
          some (field_string elem item.content "PROBLEM_".toList)
        else none
    | none => none)

/-- The strings of the four mandatory records (lines 163-172). -/
def mandatory_strings (pr : problem_report_t) (msg_id : Option CStr) : List CStr :=
  ["MESSAGE=".toList ++ problem_report_get_summary pr,
   "MESSAGE_ID=".toList ++ (match msg_id with
                            | some id => id
                            | none => DEFAULT_MESSAGE_ID),
   "PRIORITY=2".toList,
   "PROBLEM_REPORT=".toList ++ (match problem_report_get_description pr with
                                | some d => '\n' :: d
                                | none => [])]

/-- The strings of the mirrored fields (lines 175-193). -/
def mirrored_strings (K : libreport_h) (problem_data : problem_data_t) (dump_opts : Nat) :
    List CStr :=
  if dump_opts &&& DUMP_FULL = 0 then
    fields_strings problem_data (fields_default K)
      ++ (if dump_opts &&& DUMP_ESSENTIAL ≠ 0 then
            fields_strings problem_data (fields_essential K)
          else [])
  else
    elements_strings K problem_data (problem_data_get_all_elements problem_data)

/-! The release of a buffer -/

/-- What `msg_content_free` does to memory, in program order. A slot value is
`none` when the index lies outside the allocation `data` points to,
`some none` for a slot never written, `some (some iov)` for a written slot. -/
inductive free_event where
  /-- The access `msg_c->data[i]` and what it yields. -/
  | read_slot (i : Nat) (iov : Option (Option iovec))
  /-- The call `free(iov.iov_base)` in the iteration with index `i`. -/
  | free_iov_base (i : Nat) (iov : Option (Option iovec))
  /-- The call `free(msg_c->data)`. -/
  | free_data
  /-- The call `free(msg_c)`. -/
  | free_msg_c
deriving DecidableEq

/-- The loop of lines 104-105,
`for (int i = 0; i < msg_c->used; iov = msg_c->data[++i]) free(iov.iov_base);`,
entered with the current `i` and `iov`; `fuel` bounds the number of tests of
the loop condition. -/
def msg_content_free_loop (m : msg_content_t) :
    Nat → Nat → Option (Option iovec) → Option (List free_event)
  | 0, _, _ => none
  | fuel + 1, i, iov =>
      if i < m.used then
        match msg_content_free_loop m fuel (i + 1) (m.data[i + 1]?) with
        | some rest =>
            some (free_event.free_iov_base i iov
                  :: free_event.read_slot (i + 1) (m.data[i + 1]?) :: rest)
        | none => none
      else some []

/-- `msg_content_free` (lines 98-111), as the list of its memory events;
`none` when `fuel` is too small for the loop. -/
def msg_content_free (fuel : Nat) (msg_c : Option msg_content_t) : Option (List free_event) :=
  match msg_c with
  | none => some []
  | some m =>
      match msg_content_free_loop m fuel 0 (m.data[0]?) with
      | some loop_events =>
          some (free_event.read_slot 0 (m.data[0]?)
                :: loop_events ++ [free_event.free_data, free_event.free_msg_c])
      | none => none

/-- The `free` calls of a list of events, the slot accesses left out. -/
def free_calls (t : List free_event) : List free_event :=
  t.filter (fun e =>
    match e with
    | free_event.read_slot _ _ => false
    | _ => true)

/-- The indices of the slot accesses of a list of events, in order. -/
def read_indices (t : List free_event) : List Nat :=
  t.filterMap (fun e =>
    match e with
    | free_event.read_slot i _ => some i
    | _ => none)

/-- The indices of the slot accesses that fall outside the allocation. -/
def reads_out_of_range (t : List free_event) : List Nat :=
  t.filterMap (fun e =>
    match e with
    | free_event.read_slot i none => some i
    | _ => none)

/-! The option handling of `main` -/

/-- `OPT_p = 1 << 4` (line 221), the bit `parse_opts` sets for `--dump`. -/
def OPT_p : Nat := 1 <<< 4

/-- The ways the modelled parts of `main` stop the program. -/
inductive main_exit where
  /-- `show_usage_and_die` (line 252), after the error message of line 251. -/
  | show_usage_and_die
  /-- `strrchr(exe, '/') + 1` (line 285) on a `NULL` result of `strrchr`. -/
  | null_pointer_offset
deriving DecidableEq

/-- The test `dump && strcmp(dump, lit) == 0` of lines 243-247. -/
def dump_is (dump : Option CStr) (lit : CStr) : Bool :=
  match dump with
  | none => false
  | some d => decide (d = lit)

/-- Lines 240-254 of `main`: the value of `dump_opt`, from the option bits
`opts` returned by `parse_opts` and the argument `dump` of `--dump`. -/
def main_dump_opt (opts : Nat) (dump : Option CStr) : Except main_exit Nat :=
  let dump_opt := DUMP_NONE
  if opts &&& OPT_p ≠ 0 then
    if dump_is dump "NONE".toList then .ok dump_opt
    else if dump_is dump "ESSENTIAL".toList then .ok DUMP_ESSENTIAL
    else if dump_is dump "FULL".toList then .ok DUMP_FULL
    else .error main_exit.show_usage_and_die
  else .ok dump_opt

/-- The path of `main` from the option handling (lines 240-254) to the call of
line 317, for the store and the report the steps in between (lines 256-315)
have produced. -/
def main_journal_message (K : libreport_h) (opts : Nat) (dump : Option CStr)
    (message_id : Option CStr) (problem_data : problem_data_t) (pr : problem_report_t) :
    Except main_exit (Except Fault (Option msg_content_t)) :=
  match main_dump_opt opts dump with
  | .error e => .error e
  | .ok dump_opt => .ok (create_journal_message K problem_data pr message_id dump_opt)

/-- `strrchr(s, c)` of the C library for a character `c` other than NUL: the
part of `s` from the last `c` on, `NULL` when `s` holds no `c`. -/
def strrchr : CStr → Char → Option CStr
  | [], _ => none
  | x :: xs, c =>
      match strrchr xs c with
      | some r => some r
      | none => if x = c then some (x :: xs) else none

/-- Lines 282-288 of `main`. `problem_data_add_text_noteditable` is declared
outside the sources and is a parameter. -/
def main_adjust_executable (K : libreport_h)
    (problem_data_add_text_noteditable : problem_data_t → CStr → CStr → problem_data_t)
    (problem_data : problem_data_t) : Except main_exit problem_data_t :=
  let exe := problem_data_get_content_or_NULL problem_data K.FILENAME_EXECUTABLE
  let binary_name : Except main_exit (Option CStr) :=
    match exe with
    | some e =>
        match strrchr e '/' with
        | some p => .ok (some (p.drop 1))
        | none => .error main_exit.null_pointer_offset
    | none => .ok none
  match binary_name with
  | .error e => .error e
  | .ok (some b) =>
      .ok (problem_data_add_text_noteditable problem_data K.FILENAME_EXECUTABLE b)
  | .ok none => .ok problem_data

/-- An instance of the parameter `problem_data_add_text_noteditable` of
`main_adjust_executable`, used to evaluate it: the store with a text item
`content` put under `name`, replacing what was there. -/
def store_add_text (K : libreport_h) (problem_data : problem_data_t) (name content : CStr) :
    problem_data_t :=
  problem_data_t.mk
    (if name ∈ problem_data.all_elements then problem_data.all_elements
     else problem_data.all_elements ++ [name])
    (fun key =>
      if key = name then some (problem_item.mk content K.CD_FLAG_TXT)
      else problem_data.item_or_NULL key)

/-! The record key and the two constructions of a record -/

/-- The key part of a record: its characters before the first `=`. -/
def record_key (r : CStr) : CStr := r.takeWhile (fun c => c != '=')

/-- The offset `c - _s` at which the loop of line 70 stops. -/
def upper_scan_stop : CStr → Except Fault Nat
  | [] => .error .scan_overrun
  | c :: cs =>
      if c = '=' then .ok 0
      else
        match upper_scan_stop cs with
        | .ok n => .ok (n + 1)
        | .error e => .error e

/-- The spec's construction of a record (design notes): "format key/value
separately, uppercase the key+prefix substring only, then concatenate with `=`
and the untouched value". -/
def record_separate (key value pfx : CStr) : CStr :=
  (pfx ++ key).map toupper ++ '=' :: value

/-! The locale of the process -/

/-- The loop of line 70 under the locale of the process. `main` calls
`setlocale(LC_ALL, "")` (line 203) before any record is built, so the
`toupper` of line 70 uses the table the environment selects through
`LC_CTYPE`; `tu` is that table. `upper_scan` is the instance at the table of
the "C" locale. -/
def upper_scan_l (tu : Char → Char) : CStr → Except Fault CStr
  | [] => .error .scan_overrun
  | c :: cs =>
      if c = '=' then .ok (c :: cs)
      else
        match upper_scan_l tu cs with
        | .ok r => .ok (tu c :: r)
        | .error e => .error e

/-- `IOVEC_ADD_FIELD` (lines 66-73) under the `toupper` table `tu`. -/
def IOVEC_ADD_FIELD_l (tu : Char → Char) (key value pfx : CStr) : Except Fault iovec :=
  match upper_scan_l tu (xasprintf_field pfx key value) with
  | .ok _s => .ok (iovec.mk _s _s.length)
  | .error e => .error e

/-- `msg_content_add_ext` (lines 75-91) under the `toupper` table `tu`. -/
def msg_content_add_ext_l (tu : Char → Char) (msg_c : Option msg_content_t)
    (key value pfx : CStr) : Except Fault (Option msg_content_t) :=
  match msg_c with
  | none => .ok none
  | some m =>
      let m1 : msg_content_t :=
        if m.used ≥ m.allocated then
          msg_content_t.mk (m.allocated + 5) m.used (xrealloc m.data (m.allocated + 5))
        else m
      if m1.used < m1.data.length then
        match IOVEC_ADD_FIELD_l tu key value pfx with
        | .ok iov => .ok (some (msg_content_t.mk m1.allocated (m1.used + 1)
                                  (m1.data.set m1.used (some iov))))
        | .error e => .error e
      else .error .slot_out_of_range

/-- `msg_content_add` (lines 93-96) under the `toupper` table `tu`. -/
def msg_content_add_l (tu : Char → Char) (msg_c : Option msg_content_t)
    (key value : CStr) : Except Fault (Option msg_content_t) :=
  msg_content_add_ext_l tu msg_c key value []

/-- `msg_content_add_fields` (lines 143-154) under the `toupper` table `tu`. -/
def msg_content_add_fields_l (tu : Char → Char) (msg_c : Option msg_content_t)
    (problem_data : problem_data_t) : List CStr → Except Fault (Option msg_content_t)
  | [] => .ok msg_c
  | field :: fields =>
      match problem_data_get_content_or_NULL problem_data field with
      | some value =>
          match msg_content_add_ext_l tu msg_c field value "PROBLEM_".toList with
          | .ok msg_c1 => msg_content_add_fields_l tu msg_c1 problem_data fields
          | .error e => .error e
      | none => msg_content_add_fields_l tu msg_c problem_data fields

/-- The loop of lines 186-192 under the `toupper` table `tu`. -/
def msg_content_add_elements_l (tu : Char → Char) (K : libreport_h)
    (msg_c : Option msg_content_t) (problem_data : problem_data_t) :
    List CStr → Except Fault (Option msg_content_t)
  | [] => .ok msg_c
  | elem :: next =>
      match problem_data_get_item_or_NULL problem_data elem with
      | some item =>
          if item.flags &&& K.CD_FLAG_TXT ≠ 0 then
            match msg_content_add_ext_l tu msg_c elem item.content "PROBLEM_".toList with
            | .ok msg_c1 => msg_content_add_elements_l tu K msg_c1 problem_data next
            | .error e => .error e
          else msg_content_add_elements_l tu K msg_c problem_data next
      | none => msg_content_add_elements_l tu K msg_c problem_data next

/-- `create_journal_message` (lines 156-196) under the `toupper` table `tu`. -/
def create_journal_message_l (tu : Char → Char) (K : libreport_h)
    (problem_data : problem_data_t) (pr : problem_report_t) (msg_id : Option CStr)
    (dump_opts : Nat) : Except Fault (Option msg_content_t) :=
  let msg_c := some msg_content_new
  match msg_content_add_l tu msg_c "MESSAGE".toList (problem_report_get_summary pr) with
  | .error e => .error e
  | .ok msg_c =>
  match msg_content_add_l tu msg_c "MESSAGE_ID".toList
      (match msg_id with
       | some id => id
       | none => DEFAULT_MESSAGE_ID) with
  | .error e => .error e
  | .ok msg_c =>
  match msg_content_add_l tu msg_c "PRIORITY".toList "2".toList with
  | .error e => .error e
  | .ok msg_c =>
  let description : Option CStr :=
    match problem_report_get_description pr with
    | some d => some ('\n' :: d)
    | none => none
  match msg_content_add_l tu msg_c "PROBLEM_REPORT".toList
      (match description with
       | some d => d
       | none => []) with
  | .error e => .error e
  | .ok msg_c =>
  if dump_opts &&& DUMP_FULL = 0 then
    match msg_content_add_fields_l tu msg_c problem_data (fields_default K) with
    | .error e => .error e
    | .ok msg_c =>
        if dump_opts &&& DUMP_ESSENTIAL ≠ 0 then
          msg_content_add_fields_l tu msg_c problem_data (fields_essential K)
        else .ok msg_c
  else
    msg_content_add_elements_l tu K msg_c problem_data
      (problem_data_get_all_elements problem_data)

/-- The `toupper` table of a Turkish UTF-8 locale (`tr_TR.UTF-8`): the upper
case of `i` there is the letter U+0130, which takes two bytes and fits no
`char`, so `toupper('i')` is `'i'`; every other character is treated as in the
"C" locale. -/
def toupper_tr_utf8 (c : Char) : Char :=
  if c = 'i' then 'i' else toupper c

/-! The upper-casing scan -/

theorem upper_scan_append_eq (k v : CStr) (hk : '=' ∉ k) :
    upper_scan (k ++ '=' :: v) = .ok (k.map toupper ++ '=' :: v) := by
  induction k with
  | nil => simp [upper_scan]
  | cons c cs ih =>
      have hc : c ≠ '=' := fun h => hk (by simp [h])
      have hcs : '=' ∉ cs := fun h => hk (by simp [h])
      simp [upper_scan, hc, ih hcs]

theorem upper_scan_eq_upper_key (s : CStr) (h : '=' ∈ s) :
    upper_scan s = .ok (upper_key s) := by
  induction s with
  | nil => simp at h
  | cons c cs ih =>
      by_cases hc : c = '='
      · simp [upper_scan, upper_key, hc]
      · have hcs : '=' ∈ cs := by
          rcases List.mem_cons.1 h with h1 | h1
          · exact absurd h1.symm hc
          · exact h1
        simp [upper_scan, upper_key, hc, ih hcs]

theorem upper_key_length (s : CStr) : (upper_key s).length = s.length := by
  induction s with
  | nil => rfl
  | cons c cs ih =>
      by_cases hc : c = '='
      · simp [upper_key, hc]
      · simp [upper_key, hc, ih]

theorem upper_key_append_eq (k v : CStr) (hk : '=' ∉ k) :
    upper_key (k ++ '=' :: v) = k.map toupper ++ '=' :: v := by
  induction k with
  | nil => simp [upper_key]
  | cons c cs ih =>
      have hc : c ≠ '=' := fun h => hk (by simp [h])
      have hcs : '=' ∉ cs := fun h => hk (by simp [h])
      simp [upper_key, hc, ih hcs]

theorem IOVEC_ADD_FIELD_ok (key value pfx : CStr) :
    IOVEC_ADD_FIELD key value pfx
      = .ok (iovec.mk (field_string key value pfx) (field_string key value pfx).length) := by
  have h : '=' ∈ xasprintf_field pfx key value := by simp [xasprintf_field]
  unfold IOVEC_ADD_FIELD field_string
  rw [upper_scan_eq_upper_key _ h]

theorem field_string_eq (key value pfx : CStr) (hk : '=' ∉ key) (hp : '=' ∉ pfx) :
    field_string key value pfx = (pfx ++ key).map toupper ++ '=' :: value := by
  have h : '=' ∉ pfx ++ key := by simp [hk, hp]
  unfold field_string xasprintf_field
  rw [upper_key_append_eq (pfx ++ key) value h]

/-! One append -/

theorem take_succ_set {α : Type} (l : List α) (i : Nat) (x : α) (h : i < l.length) :
    (l.set i x).take (i + 1) = l.take i ++ [x] := by
  induction l generalizing i with
  | nil => simp at h
  | cons a as ih =>
      cases i with
      | zero => simp
      | succ j =>
          have hj : j < as.length := by simpa using h
          simp [ih j hj]

/-- The effect of one append on a buffer that satisfies the invariant. -/
theorem msg_content_add_ext_spec (m : msg_content_t) (key value pfx : CStr)
    (hinv : msg_content_inv m) :
    ∃ m1 : msg_content_t,
      msg_content_add_ext (some m) key value pfx = .ok (some m1)
      ∧ m1.used = m.used + 1
      ∧ m1.allocated = (if m.used = m.allocated then m.allocated + 5 else m.allocated)
      ∧ msg_content_inv m1
      ∧ sent_records (some m1) = sent_records (some m) ++ [slot (field_string key value pfx)] := by
  obtain ⟨hlen, hle⟩ := hinv
  by_cases hfull : m.used = m.allocated
  · have hge : m.used ≥ m.allocated := by omega
    have hdata : xrealloc m.data (m.allocated + 5) = m.data ++ List.replicate 5 none := by
      unfold xrealloc
      rw [List.take_of_length_le (by omega)]
      congr 2
      omega
    have hlt : m.used < (m.data ++ List.replicate 5 (none : Option iovec)).length := by
      simp; omega
    refine ⟨msg_content_t.mk (m.allocated + 5) (m.used + 1)
      ((m.data ++ List.replicate 5 none).set m.used (slot (field_string key value pfx))),
      ?_, rfl, ?_, ?_, ?_⟩
    · simp only [msg_content_add_ext, hge, if_true, hdata, hlt, IOVEC_ADD_FIELD_ok, slot]
    · simp [hfull]
    · constructor
      · simp; omega
      · simp; omega
    · simp only [sent_records, msg_content_get_data, msg_content_get_size]
      rw [take_succ_set _ _ _ hlt, List.take_append_of_le_length (by omega)]
  · have hlt0 : m.used < m.allocated := by omega
    have hnge : ¬ m.used ≥ m.allocated := by omega
    have hlt : m.used < m.data.length := by omega
    refine ⟨msg_content_t.mk m.allocated (m.used + 1)
      (m.data.set m.used (slot (field_string key value pfx))), ?_, rfl, ?_, ?_, ?_⟩
    · simp only [msg_content_add_ext, hnge, if_false, hlt, if_true, IOVEC_ADD_FIELD_ok, slot]
    · simp [hfull]
    · constructor
      · simp; omega
      · simp; omega
    · simp only [sent_records, msg_content_get_data, msg_content_get_size]
      rw [take_succ_set _ _ _ hlt]

/-! Sequences of appends -/

theorem msg_content_add_all_spec (ops : List (CStr × CStr × CStr)) (m : msg_content_t)
    (hinv : msg_content_inv m) :
    ∃ m1 : msg_content_t,
      msg_content_add_all (some m) ops = .ok (some m1)
      ∧ msg_content_inv m1
      ∧ m1.used = m.used + ops.length
      ∧ sent_records (some m1)
          = sent_records (some m)
            ++ ops.map (fun op => slot (field_string op.1 op.2.1 op.2.2)) := by
  induction ops generalizing m with
  | nil => exact ⟨m, rfl, hinv, by simp, by simp⟩
  | cons op rest ih =>
      obtain ⟨key, value, pfx⟩ := op
      obtain ⟨m1, h1, hu1, _, hinv1, hs1⟩ := msg_content_add_ext_spec m key value pfx hinv
      obtain ⟨m2, h2, hinv2, hu2, hs2⟩ := ih m1 hinv1
      refine ⟨m2, ?_, hinv2, ?_, ?_⟩
      · simp only [msg_content_add_all, h1, h2]
      · rw [hu2, hu1, List.length_cons]; omega
      · rw [hs2, hs1]; simp

theorem msg_content_add_all_append (ops later : List (CStr × CStr × CStr))
    (msg_c : Option msg_content_t) :
    msg_content_add_all msg_c (ops ++ later)
      = match msg_content_add_all msg_c ops with
        | .ok msg_c1 => msg_content_add_all msg_c1 later
        | .error e => .error e := by
  induction ops generalizing msg_c with
  | nil => rfl
  | cons op rest ih =>
      obtain ⟨key, value, pfx⟩ := op
      simp only [List.cons_append, msg_content_add_all]
      cases msg_content_add_ext msg_c key value pfx with
      | ok msg_c1 => exact ih msg_c1
      | error e => rfl

theorem msg_content_new_inv : msg_content_inv msg_content_new := by decide

theorem sent_records_new : sent_records (some msg_content_new) = [] := by decide

theorem sent_records_getElem? (m : msg_content_t) (i : Nat) (h : i < m.used) :
    m.data[i]? = (sent_records (some m))[i]? := by
  simp [sent_records, msg_content_get_data, msg_content_get_size, List.getElem?_take, h]

/-! The loops of the assembler -/

theorem msg_content_add_fields_spec (problem_data : problem_data_t) (fields : List CStr)
    (m : msg_content_t) (hinv : msg_content_inv m) :
    ∃ m1 : msg_content_t,
      msg_content_add_fields (some m) problem_data fields = .ok (some m1)
      ∧ msg_content_inv m1
      ∧ sent_records (some m1)
          = sent_records (some m) ++ (fields_strings problem_data fields).map slot := by
  induction fields generalizing m with
  | nil => exact ⟨m, rfl, hinv, by simp [fields_strings]⟩
  | cons field rest ih =>
      cases hc : problem_data_get_content_or_NULL problem_data field with
      | none =>
          obtain ⟨m1, h1, hinv1, hs1⟩ := ih m hinv
          refine ⟨m1, ?_, hinv1, ?_⟩
          · simp only [msg_content_add_fields, hc, h1]
          · rw [hs1]; simp [fields_strings, hc]
      | some value =>
          obtain ⟨m1, h1, _, _, hinv1, hs1⟩ :=
            msg_content_add_ext_spec m field value "PROBLEM_".toList hinv
          obtain ⟨m2, h2, hinv2, hs2⟩ := ih m1 hinv1
          refine ⟨m2, ?_, hinv2, ?_⟩
          · simp only [msg_content_add_fields, hc, h1, h2]
          · rw [hs2, hs1]; simp [fields_strings, hc]

theorem msg_content_add_elements_spec (K : libreport_h) (problem_data : problem_data_t)
    (elems : List CStr) (m : msg_content_t) (hinv : msg_content_inv m) :
    ∃ m1 : msg_content_t,
      msg_content_add_elements K (some m) problem_data elems = .ok (some m1)
      ∧ msg_content_inv m1
      ∧ sent_records (some m1)
          = sent_records (some m) ++ (elements_strings K problem_data elems).map slot := by
  induction elems generalizing m with
  | nil => exact ⟨m, rfl, hinv, by simp [elements_strings]⟩
  | cons elem rest ih =>
      cases hc : problem_data_get_item_or_NULL problem_data elem with
      | none =>
          obtain ⟨m1, h1, hinv1, hs1⟩ := ih m hinv
          refine ⟨m1, ?_, hinv1, ?_⟩
          · simp only [msg_content_add_elements, hc, h1]
          · rw [hs1]; simp [elements_strings, hc]
      | some item =>
          by_cases ht : item.flags &&& K.CD_FLAG_TXT ≠ 0
          · obtain ⟨m1, h1, _, _, hinv1, hs1⟩ :=
              msg_content_add_ext_spec m elem item.content "PROBLEM_".toList hinv
            obtain ⟨m2, h2, hinv2, hs2⟩ := ih m1 hinv1
            refine ⟨m2, ?_, hinv2, ?_⟩
            · simp only [msg_content_add_elements, hc, h1, h2]
              rw [if_pos ht]
            · rw [hs2, hs1]; simp [elements_strings, hc, ht]
          · obtain ⟨m1, h1, hinv1, hs1⟩ := ih m hinv
            refine ⟨m1, ?_, hinv1, ?_⟩
            · simp only [msg_content_add_elements, hc]
              rw [if_neg ht, h1]
            · rw [hs1]; simp [elements_strings, hc, ht]

/-! The assembler -/

theorem msg_content_add_spec (m : msg_content_t) (key value : CStr)
    (hinv : msg_content_inv m) (hk : '=' ∉ key) (hu : key.map toupper = key) :
    ∃ m1 : msg_content_t,
      msg_content_add (some m) key value = .ok (some m1)
      ∧ msg_content_inv m1
      ∧ sent_records (some m1) = sent_records (some m) ++ [slot (key ++ '=' :: value)] := by
  obtain ⟨m1, h1, _, _, hinv1, hs1⟩ := msg_content_add_ext_spec m key value [] hinv
  refine ⟨m1, h1, hinv1, ?_⟩
  rw [hs1, field_string_eq key value [] hk (by simp)]
  simp [hu]

theorem create_journal_message_spec (K : libreport_h) (problem_data : problem_data_t)
    (pr : problem_report_t) (msg_id : Option CStr) (dump_opts : Nat) :
    ∃ m : msg_content_t,
      create_journal_message K problem_data pr msg_id dump_opts = .ok (some m)
      ∧ msg_content_inv m
      ∧ sent_records (some m)
          = (mandatory_strings pr msg_id ++ mirrored_strings K problem_data dump_opts).map slot := by
  obtain ⟨m1, h1, hinv1, hs1⟩ := msg_content_add_spec msg_content_new "MESSAGE".toList
    (problem_report_get_summary pr) msg_content_new_inv (by decide) (by decide)
  obtain ⟨m2, h2, hinv2, hs2⟩ := msg_content_add_spec m1 "MESSAGE_ID".toList
    (match msg_id with
     | some id => id
     | none => DEFAULT_MESSAGE_ID) hinv1 (by decide) (by decide)
  obtain ⟨m3, h3, hinv3, hs3⟩ := msg_content_add_spec m2 "PRIORITY".toList "2".toList
    hinv2 (by decide) (by decide)
  obtain ⟨m4, h4, hinv4, hs4⟩ := msg_content_add_spec m3 "PROBLEM_REPORT".toList
    (match (match problem_report_get_description pr with
            | some d => some ('\n' :: d)
            | none => none : Option CStr) with
     | some d => d
     | none => []) hinv3 (by decide) (by decide)
  have hm : sent_records (some m4) = (mandatory_strings pr msg_id).map slot := by
    rw [hs4, hs3, hs2, hs1, sent_records_new]
    cases hd : problem_report_get_description pr <;> simp [mandatory_strings, hd]
  unfold create_journal_message
  simp only [h1, h2, h3, h4]
  by_cases hfull : dump_opts &&& DUMP_FULL = 0
  · obtain ⟨m5, h5, hinv5, hs5⟩ :=
      msg_content_add_fields_spec problem_data (fields_default K) m4 hinv4
    by_cases hess : dump_opts &&& DUMP_ESSENTIAL ≠ 0
    · obtain ⟨m6, h6, hinv6, hs6⟩ :=
        msg_content_add_fields_spec problem_data (fields_essential K) m5 hinv5
      refine ⟨m6, ?_, hinv6, ?_⟩
      · rw [if_pos hfull, h5]
        simp only []
        rw [if_pos hess, h6]
      · rw [hs6, hs5, hm]
        simp [mirrored_strings, hfull, hess]
    · refine ⟨m5, ?_, hinv5, ?_⟩
      · rw [if_pos hfull, h5]
        simp only []
        rw [if_neg hess]
      · rw [hs5, hm]
        simp [mirrored_strings, hfull, hess]
  · obtain ⟨m5, h5, hinv5, hs5⟩ := msg_content_add_elements_spec K problem_data
      (problem_data_get_all_elements problem_data) m4 hinv4
    refine ⟨m5, ?_, hinv5, ?_⟩
    · rw [if_neg hfull, h5]
    · rw [hs5, hm]
      simp [mirrored_strings, hfull]

/-! The record buffer: claims -/

theorem sent_records_length (m : msg_content_t) (hinv : msg_content_inv m) :
    (sent_records (some m)).length = m.used := by
  obtain ⟨hlen, hle⟩ := hinv
  simp only [sent_records, msg_content_get_data, msg_content_get_size, List.length_take]
  omega

/-- C2: after any sequence of `N` appends to a new buffer `msg_content_get_size`
returns `N`, slot `i < N` of `msg_content_get_data` holds the record built by
the `i`-th append, and the slots below `N` stay as they are under any further
appends (growth of the storage included). -/
theorem msg_content_appends_kept_in_order (ops : List (CStr × CStr × CStr)) :
    ∃ m : msg_content_t,
      msg_content_add_all (some msg_content_new) ops = .ok (some m)
      ∧ msg_content_get_size (some m) = ops.length
      ∧ (∀ (i : Nat) (h : i < ops.length),
          ∃ iov : iovec,
            IOVEC_ADD_FIELD ops[i].1 ops[i].2.1 ops[i].2.2 = .ok iov
            ∧ ∃ d, msg_content_get_data (some m) = some d ∧ d[i]? = some (some iov))
      ∧ (∀ later : List (CStr × CStr × CStr),
          ∃ m2 : msg_content_t,
            msg_content_add_all (some msg_content_new) (ops ++ later) = .ok (some m2)
            ∧ msg_content_get_size (some m2) = ops.length + later.length
            ∧ ∀ i : Nat, i < ops.length → m2.data[i]? = m.data[i]?) := by
  obtain ⟨m, h, hinv, hu, hs⟩ := msg_content_add_all_spec ops msg_content_new msg_content_new_inv
  have hu0 : m.used = ops.length := by simpa [msg_content_new] using hu
  rw [sent_records_new, List.nil_append] at hs
  refine ⟨m, h, hu0, ?_, ?_⟩
  · intro i hi
    refine ⟨_, IOVEC_ADD_FIELD_ok _ _ _, m.data, rfl, ?_⟩
    rw [sent_records_getElem? m i (by omega), hs]
    simp [hi, slot]
  · intro later
    obtain ⟨m2, h2, hinv2, hu2, hs2⟩ := msg_content_add_all_spec later m hinv
    refine ⟨m2, ?_, ?_, ?_⟩
    · rw [msg_content_add_all_append, h]
      exact h2
    · simp only [msg_content_get_size]; omega
    · intro i hi
      rw [sent_records_getElem? m2 i (by omega), sent_records_getElem? m i (by omega), hs2,
        List.getElem?_append_left (by rw [sent_records_length m hinv]; omega)]

/-- C9: `msg_content_new` has capacity 2 and count 0; `count <= capacity` holds
for it, is kept by every `msg_content_add_ext` and `msg_content_add` call, and
holds after every sequence of appends to a new buffer. -/
theorem msg_content_used_le_allocated (m : msg_content_t) (key value pfx : CStr)
    (ops : List (CStr × CStr × CStr))
    (hd : m.data.length = m.allocated) (hle : m.used ≤ m.allocated) :
    msg_content_new.allocated = 2 ∧ msg_content_new.used = 0
    ∧ msg_content_new.used ≤ msg_content_new.allocated
    ∧ (∃ m1 : msg_content_t,
        msg_content_add_ext (some m) key value pfx = .ok (some m1)
        ∧ m1.used ≤ m1.allocated ∧ m1.data.length = m1.allocated)
    ∧ (∃ m1 : msg_content_t,
        msg_content_add (some m) key value = .ok (some m1)
        ∧ m1.used ≤ m1.allocated ∧ m1.data.length = m1.allocated)
    ∧ (∃ mN : msg_content_t,
        msg_content_add_all (some msg_content_new) ops = .ok (some mN)
        ∧ mN.used ≤ mN.allocated ∧ mN.data.length = mN.allocated) := by
  refine ⟨rfl, rfl, by decide, ?_, ?_, ?_⟩
  · obtain ⟨m1, h1, _, _, hinv1, _⟩ := msg_content_add_ext_spec m key value pfx ⟨hd, hle⟩
    exact ⟨m1, h1, hinv1.2, hinv1.1⟩
  · obtain ⟨m1, h1, _, _, hinv1, _⟩ := msg_content_add_ext_spec m key value [] ⟨hd, hle⟩
    exact ⟨m1, h1, hinv1.2, hinv1.1⟩
  · obtain ⟨mN, h, hinv, _, _⟩ :=
      msg_content_add_all_spec ops msg_content_new msg_content_new_inv
    exact ⟨mN, h, hinv.2, hinv.1⟩

/-- C9, at a full buffer of two records: the append grows it and keeps the invariant. -/
theorem msg_content_used_le_allocated_witness :
    (msg_content_t.mk 2 2 [slot "A=1".toList, slot "B=2".toList]).data.length
      = (msg_content_t.mk 2 2 [slot "A=1".toList, slot "B=2".toList]).allocated
    ∧ (msg_content_t.mk 2 2 [slot "A=1".toList, slot "B=2".toList]).used
      ≤ (msg_content_t.mk 2 2 [slot "A=1".toList, slot "B=2".toList]).allocated
    ∧ ∃ m1 : msg_content_t,
        msg_content_add_ext (some (msg_content_t.mk 2 2 [slot "A=1".toList, slot "B=2".toList]))
          "c".toList "3".toList [] = .ok (some m1)
        ∧ m1.used ≤ m1.allocated ∧ m1.data.length = m1.allocated :=
  ⟨by decide, by decide,
   (msg_content_used_le_allocated
      (msg_content_t.mk 2 2 [slot "A=1".toList, slot "B=2".toList])
      "c".toList "3".toList [] [] (by decide) (by decide)).2.2.2.1⟩

/-- The capacity after `n` appends to a new buffer: 2 up to two appends, then
`2 + 5 * ceil((n - 2) / 5)`. -/
theorem msg_content_add_all_capacity (ops : List (CStr × CStr × CStr)) :
    ∃ m : msg_content_t,
      msg_content_add_all (some msg_content_new) ops = .ok (some m)
      ∧ msg_content_inv m
      ∧ m.used = ops.length
      ∧ m.allocated = (if ops.length ≤ 2 then 2 else 2 + 5 * ((ops.length - 2 + 4) / 5)) := by
  induction ops using List.reverseRecOn with
  | nil => exact ⟨msg_content_new, rfl, msg_content_new_inv, rfl, rfl⟩
  | append_singleton l op ih =>
      obtain ⟨m, h, hinv, hu, ha⟩ := ih
      obtain ⟨key, value, pfx⟩ := op
      obtain ⟨m1, h1, hu1, ha1, hinv1, _⟩ := msg_content_add_ext_spec m key value pfx hinv
      refine ⟨m1, ?_, hinv1, ?_, ?_⟩
      · rw [msg_content_add_all_append, h]
        simp only [msg_content_add_all, h1]
      · rw [hu1, hu]; simp
      · rw [ha1, hu, ha, List.length_append, List.length_singleton]
        have hle := hinv.2
        rw [hu, ha] at hle
        split_ifs at hle ⊢ <;> omega

/-- C10: an append to a buffer that satisfies the invariant grows the capacity
by exactly 5 when `count == capacity` and leaves it unchanged otherwise; after
`N` appends to a new buffer the capacity is 2 for `N <= 2` and
`2 + 5 * ceil((N - 2) / 5)` for `N > 2`, and the next append (number `N + 1`)
grows the storage exactly when `N + 1` is one of 3, 8, 13, .... -/
theorem msg_content_capacity_growth (m : msg_content_t) (key value pfx : CStr)
    (ops : List (CStr × CStr × CStr)) (hinv : msg_content_inv m) :
    (∃ m1 : msg_content_t,
        msg_content_add_ext (some m) key value pfx = .ok (some m1)
        ∧ (m.used = m.allocated → m1.allocated = m.allocated + 5)
        ∧ (m.used ≠ m.allocated → m1.allocated = m.allocated))
    ∧ (∃ mN : msg_content_t,
        msg_content_add_all (some msg_content_new) ops = .ok (some mN)
        ∧ mN.allocated = (if ops.length ≤ 2 then 2 else 2 + 5 * ((ops.length - 2 + 4) / 5))
        ∧ ∃ mN1 : msg_content_t,
            msg_content_add_ext (some mN) key value pfx = .ok (some mN1)
            ∧ (mN1.allocated = mN.allocated + 5 ↔ (ops.length + 1) % 5 = 3)
            ∧ (mN1.allocated = mN.allocated ↔ (ops.length + 1) % 5 ≠ 3)) := by
  constructor
  · obtain ⟨m1, h1, _, ha1, _, _⟩ := msg_content_add_ext_spec m key value pfx hinv
    refine ⟨m1, h1, ?_, ?_⟩
    · intro hfull; rw [ha1, if_pos hfull]
    · intro hfull; rw [ha1, if_neg hfull]
  · obtain ⟨mN, h, hinvN, hu, ha⟩ := msg_content_add_all_capacity ops
    obtain ⟨mN1, h1, _, ha1, _, _⟩ := msg_content_add_ext_spec mN key value pfx hinvN
    refine ⟨mN, h, ha, mN1, h1, ?_, ?_⟩
    · rw [ha1, hu, ha]
      split_ifs <;> omega
    · rw [ha1, hu, ha]
      split_ifs <;> omega

/-- C10, at a full buffer of two records (growth) with three earlier appends. -/
theorem msg_content_capacity_growth_witness :
    msg_content_inv (msg_content_t.mk 2 2 [slot "A=1".toList, slot "B=2".toList])
    ∧ ∃ m1 : msg_content_t,
        msg_content_add_ext (some (msg_content_t.mk 2 2 [slot "A=1".toList, slot "B=2".toList]))
          "c".toList "3".toList [] = .ok (some m1)
        ∧ ((msg_content_t.mk 2 2 [slot "A=1".toList, slot "B=2".toList]).used
              = (msg_content_t.mk 2 2 [slot "A=1".toList, slot "B=2".toList]).allocated
            → m1.allocated
              = (msg_content_t.mk 2 2 [slot "A=1".toList, slot "B=2".toList]).allocated + 5)
        ∧ ((msg_content_t.mk 2 2 [slot "A=1".toList, slot "B=2".toList]).used
              ≠ (msg_content_t.mk 2 2 [slot "A=1".toList, slot "B=2".toList]).allocated
            → m1.allocated
              = (msg_content_t.mk 2 2 [slot "A=1".toList, slot "B=2".toList]).allocated) :=
  ⟨by decide,
   (msg_content_capacity_growth
      (msg_content_t.mk 2 2 [slot "A=1".toList, slot "B=2".toList])
      "c".toList "3".toList [] [] (by decide)).1⟩

/-! The record assembler: claims -/

theorem fields_strings_length_le (problem_data : problem_data_t) (fields : List CStr) :
    (fields_strings problem_data fields).length ≤ fields.length := by
  unfold fields_strings
  exact List.length_filterMap_le _ _

theorem DUMP_NONE_bits : DUMP_NONE &&& DUMP_FULL = 0 ∧ ¬ (DUMP_NONE &&& DUMP_ESSENTIAL ≠ 0) := by
  decide

theorem DUMP_ESSENTIAL_bits :
    DUMP_ESSENTIAL &&& DUMP_FULL = 0 ∧ DUMP_ESSENTIAL &&& DUMP_ESSENTIAL ≠ 0 := by
  decide

theorem DUMP_FULL_bits : ¬ (DUMP_FULL &&& DUMP_FULL = 0) := by decide

/-- C3: for every store, report, message-id and `dump_opts`, the list built by
`create_journal_message` has at least four records, the first four being
`MESSAGE=` followed by the summary as it is, a `MESSAGE_ID` record,
`PRIORITY=2` and a `PROBLEM_REPORT` record, in this order. -/
theorem create_journal_message_mandatory_first (K : libreport_h)
    (problem_data : problem_data_t) (pr : problem_report_t) (msg_id : Option CStr)
    (dump_opts : Nat) :
    ∃ (m : msg_content_t) (id_value report_value : CStr) (rest : List (Option iovec)),
      create_journal_message K problem_data pr msg_id dump_opts = .ok (some m)
      ∧ 4 ≤ msg_content_get_size (some m)
      ∧ sent_records (some m)
          = slot ("MESSAGE=".toList ++ problem_report_get_summary pr)
            :: slot ("MESSAGE_ID=".toList ++ id_value)
            :: slot "PRIORITY=2".toList
            :: slot ("PROBLEM_REPORT=".toList ++ report_value)
            :: rest := by
  have hid : ∃ v : CStr, v = (match msg_id with
                              | some id => id
                              | none => DEFAULT_MESSAGE_ID) := ⟨_, rfl⟩
  have hrep : ∃ v : CStr, v = (match problem_report_get_description pr with
                               | some d => '\n' :: d
                               | none => []) := ⟨_, rfl⟩
  obtain ⟨id_value, hid⟩ := hid
  obtain ⟨report_value, hrep⟩ := hrep
  obtain ⟨m, h, hinv, hs⟩ := create_journal_message_spec K problem_data pr msg_id dump_opts
  unfold mandatory_strings at hs
  rw [← hid, ← hrep] at hs
  refine ⟨m, id_value, report_value,
    (mirrored_strings K problem_data dump_opts).map slot, h, ?_, ?_⟩
  · have hl := sent_records_length m hinv
    rw [hs] at hl
    simp only [msg_content_get_size, ← hl, List.length_map, List.length_append,
      List.length_cons, List.length_nil]
    omega
  · rw [hs]
    simp only [List.map_append, List.map_cons, List.map_nil,
      List.cons_append, List.nil_append]

/-- C7: the second record of `create_journal_message` is `MESSAGE_ID=` followed
by the message-id when one is given and by
`1909f1302a5240c895d7c05566100dce` otherwise; this default has 32 characters,
each a lowercase hexadecimal digit. -/
theorem create_journal_message_message_id (K : libreport_h) (problem_data : problem_data_t)
    (pr : problem_report_t) (msg_id : Option CStr) (dump_opts : Nat) :
    (∃ m : msg_content_t,
      create_journal_message K problem_data pr msg_id dump_opts = .ok (some m)
      ∧ (sent_records (some m))[1]?
          = some (slot ("MESSAGE_ID=".toList
              ++ match msg_id with
                 | some id => id
                 | none => "1909f1302a5240c895d7c05566100dce".toList)))
    ∧ DEFAULT_MESSAGE_ID = "1909f1302a5240c895d7c05566100dce".toList
    ∧ DEFAULT_MESSAGE_ID.length = 32
    ∧ DEFAULT_MESSAGE_ID.all (fun c => decide (c ∈ "0123456789abcdef".toList)) = true := by
  refine ⟨?_, rfl, by decide, by decide⟩
  obtain ⟨m, h, _, hs⟩ := create_journal_message_spec K problem_data pr msg_id dump_opts
  refine ⟨m, h, ?_⟩
  rw [hs]
  cases msg_id <;> rfl

/-- C8: the fourth record of `create_journal_message` is `PROBLEM_REPORT=`
followed by a newline and the description when the report has one (an empty
one included), and exactly `PROBLEM_REPORT=` when it has none; it is always
there. -/
theorem create_journal_message_problem_report (K : libreport_h)
    (problem_data : problem_data_t) (summary : CStr) (description : Option CStr)
    (msg_id : Option CStr) (dump_opts : Nat) :
    ∃ m : msg_content_t,
      create_journal_message K problem_data (problem_report_t.mk summary description)
        msg_id dump_opts = .ok (some m)
      ∧ 4 ≤ msg_content_get_size (some m)
      ∧ (sent_records (some m))[3]?
          = some (slot (match description with
                        | some d => "PROBLEM_REPORT=".toList ++ '\n' :: d
                        | none => "PROBLEM_REPORT=".toList)) := by
  obtain ⟨m, h, hinv, hs⟩ := create_journal_message_spec K problem_data
    (problem_report_t.mk summary description) msg_id dump_opts
  have hl := sent_records_length m hinv
  refine ⟨m, h, ?_, ?_⟩
  · rw [hs] at hl
    simp only [msg_content_get_size, ← hl, List.length_map, List.length_append,
      mandatory_strings, List.length_cons, List.length_nil]
    omega
  · rw [hs]
    cases description <;>
      simp [mandatory_strings, problem_report_get_description]

/-! The release of a buffer: claims -/

theorem msg_content_free_loop_spec (m : msg_content_t) (n : Nat) :
    ∀ (fuel i : Nat), i + n = m.used → n < fuel →
      ∃ t : List free_event,
        msg_content_free_loop m fuel i (m.data[i]?) = some t
        ∧ free_calls t
            = (List.range' i n).map (fun j => free_event.free_iov_base j (m.data[j]?))
        ∧ read_indices t = List.range' (i + 1) n := by
  induction n with
  | zero =>
      intro fuel i hi hf
      obtain ⟨f, rfl⟩ : ∃ f, fuel = f + 1 := ⟨fuel - 1, by omega⟩
      have hn : ¬ i < m.used := by omega
      exact ⟨[], by simp [msg_content_free_loop, hn], rfl, rfl⟩
  | succ n ih =>
      intro fuel i hi hf
      obtain ⟨f, rfl⟩ : ∃ f, fuel = f + 1 := ⟨fuel - 1, by omega⟩
      have hlt : i < m.used := by omega
      obtain ⟨t, ht, hfree, hread⟩ := ih f (i + 1) (by omega) (by omega)
      refine ⟨free_event.free_iov_base i (m.data[i]?)
        :: free_event.read_slot (i + 1) (m.data[i + 1]?) :: t, ?_, ?_, ?_⟩
      · simp only [msg_content_free_loop, hlt, if_true, ht]
      · simp only [free_calls, List.filter_cons] at hfree ⊢
        simp only [if_true, Bool.false_eq_true, if_false, hfree, List.range'_succ,
          List.map_cons]
      · simp only [read_indices, List.filterMap_cons] at hread ⊢
        simp only [hread, List.range'_succ]

theorem msg_content_free_spec (m : msg_content_t) (fuel : Nat) (hf : m.used < fuel) :
    ∃ t : List free_event,
      msg_content_free fuel (some m) = some t
      ∧ free_calls t
          = (List.range m.used).map (fun j => free_event.free_iov_base j (m.data[j]?))
            ++ [free_event.free_data, free_event.free_msg_c]
      ∧ read_indices t = List.range (m.used + 1) := by
  obtain ⟨t, ht, hfree, hread⟩ := msg_content_free_loop_spec m m.used fuel 0 (by omega) hf
  refine ⟨free_event.read_slot 0 (m.data[0]?)
    :: t ++ [free_event.free_data, free_event.free_msg_c], ?_, ?_, ?_⟩
  · simp only [msg_content_free, ht]
  · simp only [free_calls, List.filter_cons, List.filter_append] at hfree ⊢
    simp only [Bool.false_eq_true, if_false, hfree, List.range_eq_range']
    rfl
  · simp only [read_indices, List.filterMap_cons, List.filterMap_append] at hread ⊢
    simp only [hread, List.range_eq_range', List.range'_succ]
    simp [List.filterMap]

/-- C11: for a buffer built by `N` appends to a new buffer, `msg_content_free`
(given enough fuel for its loop) calls `free` on the string of slot 0, 1, ...,
`N - 1`, once each and in this order, each slot holding the record of the
append with that number, then on the slot array and then on the buffer. -/
theorem msg_content_free_releases_each_record_once (ops : List (CStr × CStr × CStr))
    (fuel : Nat) (hfuel : ops.length < fuel) :
    ∃ (m : msg_content_t) (t : List free_event),
      msg_content_add_all (some msg_content_new) ops = .ok (some m)
      ∧ msg_content_free fuel (some m) = some t
      ∧ free_calls t
          = (List.range ops.length).map (fun i => free_event.free_iov_base i (m.data[i]?))
            ++ [free_event.free_data, free_event.free_msg_c]
      ∧ ∀ (i : Nat) (h : i < ops.length),
          ∃ iov : iovec,
            IOVEC_ADD_FIELD ops[i].1 ops[i].2.1 ops[i].2.2 = .ok iov
            ∧ m.data[i]? = some (some iov) := by
  obtain ⟨m, h, hinv, hu, hs⟩ := msg_content_add_all_spec ops msg_content_new msg_content_new_inv
  have hu0 : m.used = ops.length := by simpa [msg_content_new] using hu
  rw [sent_records_new, List.nil_append] at hs
  obtain ⟨t, ht, hfree, _⟩ := msg_content_free_spec m fuel (by omega)
  refine ⟨m, t, h, ht, ?_, ?_⟩
  · rw [hfree, hu0]
  · intro i hi
    refine ⟨_, IOVEC_ADD_FIELD_ok _ _ _, ?_⟩
    rw [sent_records_getElem? m i (by omega), hs]
    simp [hi, slot]

/-- C11, for two appends (a full buffer) and fuel 3. -/
theorem msg_content_free_releases_each_record_once_witness :
    [("a".toList, "1".toList, ([] : CStr)), ("b".toList, "2".toList, [])].length < 3
    ∧ ∃ (m : msg_content_t) (t : List free_event),
        msg_content_add_all (some msg_content_new)
          [("a".toList, "1".toList, []), ("b".toList, "2".toList, [])] = .ok (some m)
        ∧ msg_content_free 3 (some m) = some t
        ∧ free_calls t
            = [free_event.free_iov_base 0 (some (slot "A=1".toList)),
               free_event.free_iov_base 1 (some (slot "B=2".toList)),
               free_event.free_data, free_event.free_msg_c] :=
  ⟨by decide, by
    obtain ⟨m, t, h, ht, hfree, _⟩ := msg_content_free_releases_each_record_once
      [("a".toList, "1".toList, []), ("b".toList, "2".toList, [])] 3 (by decide)
    have hm : msg_content_add_all (some msg_content_new)
        [("a".toList, "1".toList, []), ("b".toList, "2".toList, [])]
        = .ok (some (msg_content_t.mk 2 2 [slot "A=1".toList, slot "B=2".toList])) := by
      decide
    rw [hm] at h
    cases h
    exact ⟨_, t, hm, ht, by rw [hfree]; decide⟩⟩

/-- C12 fails on the code: after exactly 2 appends, and for the 7 records
`create_journal_message` builds in mode `NONE` from a store with all three
default fields, `used == allocated` and `msg_content_free` accesses the slot
with index `used`, which lies outside the allocation. -/
theorem msg_content_free_reads_past_full_buffer :
    (msg_content_add_all (some msg_content_new)
        [("a".toList, "1".toList, []), ("b".toList, "2".toList, [])]).map
      (fun msg_c =>
        (msg_content_get_size msg_c, (msg_content_get_data msg_c).map List.length,
         (msg_content_free 3 msg_c).map read_indices,
         (msg_content_free 3 msg_c).map reads_out_of_range))
      = .ok (2, some 2, some [0, 1, 2], some [2])
    ∧ (create_journal_message spec_names
        (store_of [("executable".toList, problem_item.mk "/usr/bin/foo".toList 2),
                   ("pid".toList, problem_item.mk "12".toList 2),
                   ("exception-type".toList, problem_item.mk "E".toList 2)])
        (problem_report_t.mk "sum".toList none) none DUMP_NONE).map
      (fun msg_c =>
        (msg_content_get_size msg_c, (msg_content_get_data msg_c).map List.length,
         (msg_content_free 8 msg_c).map read_indices,
         (msg_content_free 8 msg_c).map reads_out_of_range))
      = .ok (7, some 7, some [0, 1, 2, 3, 4, 5, 6, 7], some [7]) := by
  constructor <;> decide

/-- The slot accesses of `msg_content_free` on a buffer built by appends are at
the indices 0, ..., `used`: the slot with index `used` is accessed too. -/
theorem msg_content_free_read_indices (ops : List (CStr × CStr × CStr))
    (fuel : Nat) (hfuel : ops.length < fuel) :
    ∃ (m : msg_content_t) (t : List free_event),
      msg_content_add_all (some msg_content_new) ops = .ok (some m)
      ∧ msg_content_free fuel (some m) = some t
      ∧ read_indices t = List.range (msg_content_get_size (some m) + 1) := by
  obtain ⟨m, h, _, hu, _⟩ := msg_content_add_all_spec ops msg_content_new msg_content_new_inv
  have hu0 : m.used = ops.length := by simpa [msg_content_new] using hu
  obtain ⟨t, ht, _, hread⟩ := msg_content_free_spec m fuel (by omega)
  exact ⟨m, t, h, ht, hread⟩

/-- C13: on a `NULL` buffer `msg_content_get_size` returns 0,
`msg_content_get_data` returns `NULL`, `msg_content_add_ext` and
`msg_content_add` return without a fault and leave the pointer `NULL`, and
`msg_content_free` does nothing; on a buffer `m`, `msg_content_get_size`
returns `m.used` and `msg_content_get_data` returns `m.data`. -/
theorem msg_content_null_is_no_op (m : msg_content_t) (key value pfx : CStr) (fuel : Nat) :
    msg_content_get_size none = 0
    ∧ msg_content_get_data none = none
    ∧ msg_content_add_ext none key value pfx = .ok none
    ∧ msg_content_add none key value = .ok none
    ∧ msg_content_free fuel none = some []
    ∧ msg_content_get_size (some m) = m.used
    ∧ msg_content_get_data (some m) = some m.data :=
  ⟨rfl, rfl, rfl, rfl, rfl, rfl, rfl⟩

/-! The option handling of `main`: claims -/

/-- C14: `main` takes `DUMP_NONE` when `--dump` is not given, maps the
arguments `NONE`, `ESSENTIAL` and `FULL` of `--dump` to `DUMP_NONE`,
`DUMP_ESSENTIAL` and `DUMP_FULL` by exact comparison, and for every other
argument (`full`, `None` and `FULL ` among them, and a missing one) stops in
`show_usage_and_die` before `create_journal_message` is called. -/
theorem main_dump_opt_selects_mode (K : libreport_h) (opts : Nat) (dump : Option CStr)
    (message_id : Option CStr) (problem_data : problem_data_t) (pr : problem_report_t) :
    (opts &&& OPT_p = 0 →
        main_dump_opt opts dump = .ok DUMP_NONE
        ∧ main_journal_message K opts dump message_id problem_data pr
            = .ok (create_journal_message K problem_data pr message_id DUMP_NONE))
    ∧ (opts &&& OPT_p ≠ 0 →
        main_dump_opt opts (some "NONE".toList) = .ok DUMP_NONE
        ∧ main_dump_opt opts (some "ESSENTIAL".toList) = .ok DUMP_ESSENTIAL
        ∧ main_dump_opt opts (some "FULL".toList) = .ok DUMP_FULL
        ∧ main_dump_opt opts (some "full".toList) = .error main_exit.show_usage_and_die
        ∧ main_dump_opt opts (some "None".toList) = .error main_exit.show_usage_and_die
        ∧ main_dump_opt opts (some "FULL ".toList) = .error main_exit.show_usage_and_die
        ∧ (dump ≠ some "NONE".toList → dump ≠ some "ESSENTIAL".toList →
            dump ≠ some "FULL".toList →
            main_dump_opt opts dump = .error main_exit.show_usage_and_die
            ∧ main_journal_message K opts dump message_id problem_data pr
                = .error main_exit.show_usage_and_die))
    ∧ DUMP_NONE = 1 ∧ DUMP_ESSENTIAL = 2 ∧ DUMP_FULL = 4 := by
  refine ⟨?_, ?_, rfl, rfl, rfl⟩
  · intro h0
    have h : main_dump_opt opts dump = .ok DUMP_NONE := by
      simp [main_dump_opt, h0]
    exact ⟨h, by simp only [main_journal_message, h]⟩
  · intro hp
    have hg : ∀ dmp : Option CStr, main_dump_opt opts dmp
        = if dump_is dmp "NONE".toList then .ok DUMP_NONE
          else if dump_is dmp "ESSENTIAL".toList then .ok DUMP_ESSENTIAL
          else if dump_is dmp "FULL".toList then .ok DUMP_FULL
          else .error main_exit.show_usage_and_die := by
      intro dmp
      simp only [main_dump_opt]
      rw [if_pos hp]
    refine ⟨?_, ?_, ?_, ?_, ?_, ?_, ?_⟩
    · rw [hg]; rfl
    · rw [hg]; rfl
    · rw [hg]; rfl
    · rw [hg]; rfl
    · rw [hg]; rfl
    · rw [hg]; rfl
    · intro h1 h2 h3
      have h : main_dump_opt opts dump = .error main_exit.show_usage_and_die := by
        rw [hg]
        cases dump with
        | none => rfl
        | some d =>
            have e1 : dump_is (some d) "NONE".toList = false :=
              decide_eq_false (fun e => h1 (by rw [e]))
            have e2 : dump_is (some d) "ESSENTIAL".toList = false :=
              decide_eq_false (fun e => h2 (by rw [e]))
            have e3 : dump_is (some d) "FULL".toList = false :=
              decide_eq_false (fun e => h3 (by rw [e]))
            rw [e1, e2, e3]
            rfl
      exact ⟨h, by simp only [main_journal_message, h]⟩

/-- C14, with `--dump` given (`opts = OPT_p`) and the argument `essential`. -/
theorem main_dump_opt_selects_mode_witness :
    OPT_p &&& OPT_p ≠ 0
    ∧ some "essential".toList ≠ some "NONE".toList
    ∧ some "essential".toList ≠ some "ESSENTIAL".toList
    ∧ some "essential".toList ≠ some "FULL".toList
    ∧ main_dump_opt OPT_p (some "essential".toList) = .error main_exit.show_usage_and_die
    ∧ main_journal_message spec_names OPT_p (some "essential".toList) none (store_of [])
        (problem_report_t.mk "sum".toList none) = .error main_exit.show_usage_and_die :=
  ⟨by decide, by decide, by decide, by decide,
   ((main_dump_opt_selects_mode spec_names OPT_p (some "essential".toList) none (store_of [])
      (problem_report_t.mk "sum".toList none)).2.1 (by decide)).2.2.2.2.2.2
      (by decide) (by decide) (by decide)⟩

/-! Upper-case keys: claims -/

theorem lower_case_iff (c : Char) :
    ('a' ≤ c ∧ c ≤ 'z') ↔ (97 ≤ c.toNat ∧ c.toNat ≤ 122) := by
  simp only [Char.le_def, UInt32.le_def, Char.toNat]
  rfl

theorem toupper_not_lower_case (c : Char) : ¬ ('a' ≤ toupper c ∧ toupper c ≤ 'z') := by
  unfold toupper
  by_cases h : 'a' ≤ c ∧ c ≤ 'z'
  · rw [if_pos h]
    have h2 := (lower_case_iff c).1 h
    have hc : c = Char.ofNat c.toNat := (Char.ofNat_toNat c).symm
    generalize c.toNat = n at h2 hc
    obtain ⟨h3, h4⟩ := h2
    subst hc
    interval_cases n <;> decide
  · rw [if_neg h]; exact h

theorem toupper_eq_equals_sign (c : Char) : toupper c = '=' ↔ c = '=' := by
  unfold toupper
  by_cases h : 'a' ≤ c ∧ c ≤ 'z'
  · rw [if_pos h]
    have h2 := (lower_case_iff c).1 h
    have hc : c = Char.ofNat c.toNat := (Char.ofNat_toNat c).symm
    generalize c.toNat = n at h2 hc
    obtain ⟨h3, h4⟩ := h2
    subst hc
    interval_cases n <;> decide
  · rw [if_neg h]

theorem record_key_cons_of_ne (c : Char) (cs : CStr) (h : c ≠ '=') :
    record_key (c :: cs) = c :: record_key cs := by
  have hb : (c != '=') = true := by simpa using h
  simp only [record_key, List.takeWhile, hb]

theorem record_key_cons_equals_sign (cs : CStr) : record_key ('=' :: cs) = [] := by
  simp [record_key, List.takeWhile]

theorem record_key_upper_key (s : CStr) :
    record_key (upper_key s) = (record_key s).map toupper := by
  induction s with
  | nil => rfl
  | cons c cs ih =>
      by_cases hc : c = '='
      · subst hc
        simp only [upper_key, if_true, record_key_cons_equals_sign, List.map_nil]
      · have hu : toupper c ≠ '=' := fun e => hc ((toupper_eq_equals_sign c).1 e)
        simp only [upper_key, hc, if_false, record_key_cons_of_ne _ _ hu,
          record_key_cons_of_ne _ _ hc, ih, List.map_cons]

theorem record_key_append (k v : CStr) (hk : '=' ∉ k) :
    record_key (k ++ '=' :: v) = k := by
  induction k with
  | nil => exact record_key_cons_equals_sign v
  | cons c cs ih =>
      have hc : c ≠ '=' := fun h => hk (by simp [h])
      have hcs : '=' ∉ cs := fun h => hk (by simp [h])
      rw [List.cons_append, record_key_cons_of_ne _ _ hc, ih hcs]

theorem record_key_append_left (p s : CStr) (hp : '=' ∉ p) :
    record_key (p ++ s) = p ++ record_key s := by
  induction p with
  | nil => rfl
  | cons c cs ih =>
      have hc : c ≠ '=' := fun h => hp (by simp [h])
      have hcs : '=' ∉ cs := fun h => hp (by simp [h])
      rw [List.cons_append, record_key_cons_of_ne _ _ hc, ih hcs, List.cons_append]

theorem field_string_key_upper (key value pfx : CStr) :
    ∀ c ∈ record_key (field_string key value pfx), ¬ ('a' ≤ c ∧ c ≤ 'z') := by
  intro c hc
  rw [field_string, record_key_upper_key] at hc
  obtain ⟨d, _, rfl⟩ := List.mem_map.1 hc
  exact toupper_not_lower_case d

theorem field_string_problem_key (name content : CStr) :
    (record_key (field_string name content "PROBLEM_".toList)).take 8 = "PROBLEM_".toList := by
  have h : xasprintf_field "PROBLEM_".toList name content
      = "PROBLEM_".toList ++ (name ++ '=' :: content) := by
    simp [xasprintf_field]
  rw [field_string, record_key_upper_key, h,
    record_key_append_left "PROBLEM_".toList _ (by decide), List.map_append]
  rfl

theorem mirrored_strings_form (K : libreport_h) (problem_data : problem_data_t)
    (dump_opts : Nat) :
    ∀ r ∈ mirrored_strings K problem_data dump_opts,
      ∃ name content : CStr, r = field_string name content "PROBLEM_".toList := by
  have hf : ∀ fields : List CStr, ∀ r ∈ fields_strings problem_data fields,
      ∃ name content : CStr, r = field_string name content "PROBLEM_".toList := by
    intro fields r hr
    obtain ⟨name, _, hn⟩ := List.mem_filterMap.1 hr
    cases hc : problem_data_get_content_or_NULL problem_data name with
    | none => simp [hc] at hn
    | some content =>
        simp only [hc, Option.some.injEq] at hn
        exact ⟨name, content, hn.symm⟩
  have he : ∀ elems : List CStr, ∀ r ∈ elements_strings K problem_data elems,
      ∃ name content : CStr, r = field_string name content "PROBLEM_".toList := by
    intro elems r hr
    obtain ⟨name, _, hn⟩ := List.mem_filterMap.1 hr
    cases hc : problem_data_get_item_or_NULL problem_data name with
    | none => simp [hc] at hn
    | some item =>
        simp only [hc] at hn
        by_cases ht : item.flags &&& K.CD_FLAG_TXT ≠ 0
        · rw [if_pos ht] at hn
          exact ⟨name, item.content, (Option.some.inj hn).symm⟩
        · rw [if_neg ht] at hn
          cases hn
  intro r hr
  unfold mirrored_strings at hr
  split_ifs at hr with h1 h2
  · rcases List.mem_append.1 hr with h | h
    · exact hf _ r h
    · exact hf _ r h
  · rw [List.append_nil] at hr
    exact hf _ r hr
  · exact he _ r hr

/-- Under the `toupper` table of the "C" locale: the key part of every record
`IOVEC_ADD_FIELD` builds (any key, prefix and value) holds no lowercase ASCII
letter; in every list `create_journal_message` returns the keys of the first
four records are `MESSAGE`, `MESSAGE_ID`, `PRIORITY` and `PROBLEM_REPORT`, the
key of every later record starts with `PROBLEM_`, and no key holds a lowercase
letter. -/
theorem record_keys_are_upper_case_in_C_locale (K : libreport_h) (problem_data : problem_data_t)
    (pr : problem_report_t) (msg_id : Option CStr) (dump_opts : Nat)
    (key value pfx : CStr) :
    (∃ iov : iovec,
        IOVEC_ADD_FIELD key value pfx = .ok iov
        ∧ ∀ c ∈ record_key iov.iov_base, ¬ ('a' ≤ c ∧ c ≤ 'z'))
    ∧ (∃ (m : msg_content_t) (strs : List CStr),
        create_journal_message K problem_data pr msg_id dump_opts = .ok (some m)
        ∧ sent_records (some m) = strs.map slot
        ∧ (strs.take 4).map record_key
            = ["MESSAGE".toList, "MESSAGE_ID".toList, "PRIORITY".toList,
               "PROBLEM_REPORT".toList]
        ∧ (∀ r ∈ strs.drop 4, (record_key r).take 8 = "PROBLEM_".toList)
        ∧ (∀ r ∈ strs, ∀ c ∈ record_key r, ¬ ('a' ≤ c ∧ c ≤ 'z'))) := by
  constructor
  · exact ⟨_, IOVEC_ADD_FIELD_ok key value pfx, field_string_key_upper key value pfx⟩
  · obtain ⟨m, h, _, hs⟩ := create_journal_message_spec K problem_data pr msg_id dump_opts
    have hlen : (mandatory_strings pr msg_id).length = 4 := rfl
    have hkeys : (mandatory_strings pr msg_id).map record_key
        = ["MESSAGE".toList, "MESSAGE_ID".toList, "PRIORITY".toList,
           "PROBLEM_REPORT".toList] := by
      simp only [mandatory_strings, List.map_cons, List.map_nil]
      rw [show ("MESSAGE=".toList ++ problem_report_get_summary pr)
            = "MESSAGE".toList ++ '=' :: problem_report_get_summary pr from rfl,
        show ∀ v : CStr, "MESSAGE_ID=".toList ++ v = "MESSAGE_ID".toList ++ '=' :: v
          from fun _ => rfl,
        show "PRIORITY=2".toList = "PRIORITY".toList ++ '=' :: "2".toList from rfl,
        show ∀ v : CStr, "PROBLEM_REPORT=".toList ++ v
            = "PROBLEM_REPORT".toList ++ '=' :: v from fun _ => rfl,
        record_key_append _ _ (by decide), record_key_append _ _ (by decide),
        record_key_append _ _ (by decide), record_key_append _ _ (by decide)]
    refine ⟨m, mandatory_strings pr msg_id ++ mirrored_strings K problem_data dump_opts,
      h, hs, ?_, ?_, ?_⟩
    · rw [List.take_left' hlen, hkeys]
    · intro r hr
      rw [List.drop_left' hlen] at hr
      obtain ⟨name, content, rfl⟩ := mirrored_strings_form K problem_data dump_opts r hr
      exact field_string_problem_key name content
    · intro r hr c hc
      rcases List.mem_append.1 hr with hm | hm
      · have hk : record_key r ∈ (mandatory_strings pr msg_id).map record_key :=
          List.mem_map_of_mem _ hm
        rw [hkeys] at hk
        have hall : ∀ k ∈ ["MESSAGE".toList, "MESSAGE_ID".toList, "PRIORITY".toList,
            "PROBLEM_REPORT".toList], ∀ d ∈ k, ¬ ('a' ≤ d ∧ d ≤ 'z') := by decide
        exact hall _ hk c hc
      · obtain ⟨name, content, rfl⟩ := mirrored_strings_form K problem_data dump_opts r hm
        exact field_string_key_upper name content "PROBLEM_".toList c hc

/-! Upper-case keys under the locale of the process: claims -/

theorem upper_scan_l_toupper (s : CStr) : upper_scan_l toupper s = upper_scan s := by
  induction s with
  | nil => rfl
  | cons c cs ih => simp only [upper_scan_l, upper_scan, ih]

theorem IOVEC_ADD_FIELD_l_toupper (key value pfx : CStr) :
    IOVEC_ADD_FIELD_l toupper key value pfx = IOVEC_ADD_FIELD key value pfx := by
  simp only [IOVEC_ADD_FIELD_l, IOVEC_ADD_FIELD, upper_scan_l_toupper]

theorem msg_content_add_ext_l_toupper (msg_c : Option msg_content_t) (key value pfx : CStr) :
    msg_content_add_ext_l toupper msg_c key value pfx
      = msg_content_add_ext msg_c key value pfx := by
  cases msg_c with
  | none => rfl
  | some m => simp only [msg_content_add_ext_l, msg_content_add_ext, IOVEC_ADD_FIELD_l_toupper]

theorem msg_content_add_l_toupper (msg_c : Option msg_content_t) (key value : CStr) :
    msg_content_add_l toupper msg_c key value = msg_content_add msg_c key value :=
  msg_content_add_ext_l_toupper msg_c key value []

theorem msg_content_add_fields_l_toupper (problem_data : problem_data_t)
    (fields : List CStr) (msg_c : Option msg_content_t) :
    msg_content_add_fields_l toupper msg_c problem_data fields
      = msg_content_add_fields msg_c problem_data fields := by
  induction fields generalizing msg_c with
  | nil => rfl
  | cons field rest ih =>
      simp only [msg_content_add_fields_l, msg_content_add_fields,
        msg_content_add_ext_l_toupper, ih]

theorem msg_content_add_elements_l_toupper (K : libreport_h) (problem_data : problem_data_t)
    (elems : List CStr) (msg_c : Option msg_content_t) :
    msg_content_add_elements_l toupper K msg_c problem_data elems
      = msg_content_add_elements K msg_c problem_data elems := by
  induction elems generalizing msg_c with
  | nil => rfl
  | cons elem rest ih =>
      simp only [msg_content_add_elements_l, msg_content_add_elements,
        msg_content_add_ext_l_toupper, ih]

/-- The embedding of `create_journal_message` used above is the one under the
locale of the process, taken at the `toupper` table of the "C" locale. -/
theorem create_journal_message_l_toupper (K : libreport_h) (problem_data : problem_data_t)
    (pr : problem_report_t) (msg_id : Option CStr) (dump_opts : Nat) :
    create_journal_message_l toupper K problem_data pr msg_id dump_opts
      = create_journal_message K problem_data pr msg_id dump_opts := by
  simp only [create_journal_message_l, create_journal_message, msg_content_add_l_toupper,
    msg_content_add_fields_l_toupper, msg_content_add_elements_l_toupper]

/-- C15 fails on the code: under the `toupper` table of a Turkish UTF-8 locale
`msg_content_add_ext` called as at line 150 with the key `pid` stores
`PROBLEM_PiD=12`, whose key part holds the lowercase letter `i`; so does the
list `create_journal_message` builds in mode `NONE` from a store with the
element `pid`, while under the "C" locale the record is `PROBLEM_PID=12`. -/
theorem record_key_keeps_lower_case_i_in_turkish_locale :
    (msg_content_add_ext_l toupper_tr_utf8 (some msg_content_new)
        "pid".toList "12".toList "PROBLEM_".toList).map sent_records
      = .ok [slot "PROBLEM_PiD=12".toList]
    ∧ record_key "PROBLEM_PiD=12".toList = "PROBLEM_PiD".toList
    ∧ 'i' ∈ record_key "PROBLEM_PiD=12".toList
    ∧ ('a' ≤ 'i' ∧ 'i' ≤ 'z')
    ∧ (create_journal_message_l toupper_tr_utf8 spec_names
        (store_of [("pid".toList, problem_item.mk "12".toList 2)])
        (problem_report_t.mk "sum".toList none) none DUMP_NONE).map sent_records
      = .ok [slot "MESSAGE=sum".toList,
             slot "MESSAGE_ID=1909f1302a5240c895d7c05566100dce".toList,
             slot "PRIORITY=2".toList,
             slot "PROBLEM_REPORT=".toList,
             slot "PROBLEM_PiD=12".toList]
    ∧ (create_journal_message_l toupper spec_names
        (store_of [("pid".toList, problem_item.mk "12".toList 2)])
        (problem_report_t.mk "sum".toList none) none DUMP_NONE).map sent_records
      = .ok [slot "MESSAGE=sum".toList,
             slot "MESSAGE_ID=1909f1302a5240c895d7c05566100dce".toList,
             slot "PRIORITY=2".toList,
             slot "PROBLEM_REPORT=".toList,
             slot "PROBLEM_PID=12".toList] := by
  refine ⟨?_, ?_, ?_, ?_, ?_, ?_⟩ <;> decide

/-! The two constructions of a record: claims -/

/-- C16 fails as stated: for the key `a=b` the code stores `A=b=v`, the
separate construction gives `A=B=v`. -/
theorem in_place_differs_from_separate_on_key_with_equals_sign :
    IOVEC_ADD_FIELD "a=b".toList "v".toList [] = .ok (iovec.mk "A=b=v".toList 5)
    ∧ record_separate "a=b".toList "v".toList [] = "A=B=v".toList
    ∧ IOVEC_ADD_FIELD "a=b".toList "v".toList []
        ≠ .ok (iovec.mk (record_separate "a=b".toList "v".toList [])
                (record_separate "a=b".toList "v".toList []).length) := by
  decide

/-- C16, amended: for a key and a prefix without `=` the in-place construction
of the code and the separate construction of the spec give the same record. -/
theorem in_place_equals_separate (key value pfx : CStr)
    (hk : '=' ∉ key) (hp : '=' ∉ pfx) :
    IOVEC_ADD_FIELD key value pfx
      = .ok (iovec.mk (record_separate key value pfx)
              (record_separate key value pfx).length) := by
  rw [IOVEC_ADD_FIELD_ok, field_string_eq key value pfx hk hp]
  rfl

/-- C16 amended, at key `execUtable`, value `a=b`, prefix `problem_`. -/
theorem in_place_equals_separate_witness :
    '=' ∉ "execUtable".toList ∧ '=' ∉ "problem_".toList
    ∧ IOVEC_ADD_FIELD "execUtable".toList "a=b".toList "problem_".toList
      = .ok (iovec.mk (record_separate "execUtable".toList "a=b".toList "problem_".toList)
              (record_separate "execUtable".toList "a=b".toList "problem_".toList).length) :=
  ⟨by decide, by decide,
   in_place_equals_separate "execUtable".toList "a=b".toList "problem_".toList
     (by decide) (by decide)⟩

/-! The upper-casing scan stays inside the string: claims -/

theorem upper_scan_stop_spec (a b : CStr) :
    ∃ n : Nat,
      upper_scan_stop (a ++ '=' :: b) = .ok n
      ∧ n ≤ a.length
      ∧ (a ++ '=' :: b)[n]? = some '='
      ∧ (upper_key (a ++ '=' :: b)).drop n = (a ++ '=' :: b).drop n := by
  induction a with
  | nil => exact ⟨0, by simp [upper_scan_stop], by simp, by simp, by simp [upper_key]⟩
  | cons c cs ih =>
      by_cases hc : c = '='
      · subst hc
        exact ⟨0, by simp [upper_scan_stop], by simp, by simp, by simp [upper_key]⟩
      · obtain ⟨n, h1, h2, h3, h4⟩ := ih
        refine ⟨n + 1, ?_, ?_, ?_, ?_⟩
        · rw [List.cons_append]
          simp only [upper_scan_stop, hc, if_false, h1]
        · simp only [List.length_cons]; omega
        · simpa using h3
        · simpa [upper_key, hc] using h4

/-- C18: for every prefix, key and value the scan of `IOVEC_ADD_FIELD` returns;
it stops at an offset `n <= length(prefix) + length(key)` that holds an `=`
and lies before the terminator; the string keeps its length and its
characters from offset `n` on; the stored length is
`length(prefix) + length(key) + 1 + length(value)`. -/
theorem upper_scan_stays_inside (key value pfx : CStr) :
    ∃ (r : CStr) (n : Nat),
      upper_scan (xasprintf_field pfx key value) = .ok r
      ∧ upper_scan_stop (xasprintf_field pfx key value) = .ok n
      ∧ n ≤ pfx.length + key.length
      ∧ n < (xasprintf_field pfx key value).length
      ∧ (xasprintf_field pfx key value)[n]? = some '='
      ∧ r.length = (xasprintf_field pfx key value).length
      ∧ r.drop n = (xasprintf_field pfx key value).drop n
      ∧ IOVEC_ADD_FIELD key value pfx
          = .ok (iovec.mk r (pfx.length + key.length + 1 + value.length)) := by
  have hmem : '=' ∈ xasprintf_field pfx key value := by simp [xasprintf_field]
  obtain ⟨n, h1, h2, h3, h4⟩ := upper_scan_stop_spec (pfx ++ key) value
  have hlen : (xasprintf_field pfx key value).length
      = pfx.length + key.length + 1 + value.length := by
    simp [xasprintf_field]; omega
  refine ⟨upper_key (xasprintf_field pfx key value), n,
    upper_scan_eq_upper_key _ hmem, h1, by simpa using h2, ?_, h3,
    upper_key_length _, h4, ?_⟩
  · rw [hlen]
    have := h2
    simp only [List.length_append] at this
    omega
  · rw [IOVEC_ADD_FIELD_ok, field_string, upper_key_length, hlen]

/-! The executable element in `main`: claims -/

theorem strrchr_none_of_not_mem (s : CStr) (c : Char) (h : c ∉ s) : strrchr s c = none := by
  induction s with
  | nil => rfl
  | cons x xs ih =>
      have hx : x ≠ c := fun e => h (by simp [e])
      have hxs : c ∉ xs := fun e => h (by simp [e])
      simp only [strrchr, ih hxs, hx, if_false]

theorem strrchr_last (a b : CStr) (c : Char) (h : c ∉ b) :
    strrchr (a ++ c :: b) c = some (c :: b) := by
  induction a with
  | nil => simp only [List.nil_append, strrchr, strrchr_none_of_not_mem b c h, if_true]
  | cons x xs ih =>
      rw [List.cons_append]
      simp only [strrchr, ih]

/-- What lines 282-288 do: nothing without an executable element, the part
after the last `/` is stored when there is a `/`, and the pointer
`strrchr(exe, '/') + 1` is formed from `NULL` when there is none. -/
theorem main_adjust_executable_spec (K : libreport_h)
    (add_text : problem_data_t → CStr → CStr → problem_data_t)
    (problem_data : problem_data_t) :
    (problem_data_get_content_or_NULL problem_data K.FILENAME_EXECUTABLE = none →
        main_adjust_executable K add_text problem_data = .ok problem_data)
    ∧ (∀ dir name : CStr,
        problem_data_get_content_or_NULL problem_data K.FILENAME_EXECUTABLE
          = some (dir ++ '/' :: name) → '/' ∉ name →
        main_adjust_executable K add_text problem_data
          = .ok (add_text problem_data K.FILENAME_EXECUTABLE name))
    ∧ (∀ exe : CStr,
        problem_data_get_content_or_NULL problem_data K.FILENAME_EXECUTABLE = some exe →
        '/' ∉ exe →
        main_adjust_executable K add_text problem_data
          = .error main_exit.null_pointer_offset) := by
  refine ⟨?_, ?_, ?_⟩
  · intro h
    simp only [main_adjust_executable, h]
  · intro dir name h hn
    simp only [main_adjust_executable, h, strrchr_last dir name '/' hn, List.drop_one,
      List.tail_cons]
  · intro exe h hn
    simp only [main_adjust_executable, h, strrchr_none_of_not_mem exe '/' hn]

/-- C17 fails on the code: for a store whose executable element is `java` (no
`/`) lines 282-288 form `strrchr(exe, '/') + 1` from `NULL` instead of keeping
`java`; for `/usr/bin/foo` the element becomes `foo`. -/
theorem main_adjust_executable_without_slash :
    (main_adjust_executable spec_names (store_add_text spec_names)
        (store_of [("executable".toList, problem_item.mk "java".toList 2)])).map
      (fun pd => problem_data_get_content_or_NULL pd "executable".toList)
      = .error main_exit.null_pointer_offset
    ∧ (main_adjust_executable spec_names (store_add_text spec_names)
        (store_of [("executable".toList, problem_item.mk "/usr/bin/foo".toList 2)])).map
      (fun pd => problem_data_get_content_or_NULL pd "executable".toList)
      = .ok (some "foo".toList) := by
  constructor <;> decide

theorem create_journal_message_after_mandatory_records (pr : problem_report_t)
    (msg_id : Option CStr) :
    ∃ m4 : msg_content_t,
      sent_records (some m4) = (mandatory_strings pr msg_id).map slot
      ∧ ∀ (K : libreport_h) (problem_data : problem_data_t) (dump_opts : Nat),
        create_journal_message K problem_data pr msg_id dump_opts
          = if dump_opts &&& DUMP_FULL = 0 then
              match msg_content_add_fields (some m4) problem_data (fields_default K) with
              | .error e => .error e
              | .ok msg_c =>
                  if dump_opts &&& DUMP_ESSENTIAL ≠ 0 then
                    msg_content_add_fields msg_c problem_data (fields_essential K)
                  else .ok msg_c
            else
              msg_content_add_elements K (some m4) problem_data
                (problem_data_get_all_elements problem_data) := by
  obtain ⟨m1, h1, hinv1, hs1⟩ := msg_content_add_spec msg_content_new "MESSAGE".toList
    (problem_report_get_summary pr) msg_content_new_inv (by decide) (by decide)
  obtain ⟨m2, h2, hinv2, hs2⟩ := msg_content_add_spec m1 "MESSAGE_ID".toList
    (match msg_id with
     | some id => id
     | none => DEFAULT_MESSAGE_ID) hinv1 (by decide) (by decide)
  obtain ⟨m3, h3, hinv3, hs3⟩ := msg_content_add_spec m2 "PRIORITY".toList "2".toList
    hinv2 (by decide) (by decide)
  obtain ⟨m4, h4, _, hs4⟩ := msg_content_add_spec m3 "PROBLEM_REPORT".toList
    (match (match problem_report_get_description pr with
            | some d => some ('\n' :: d)
            | none => none : Option CStr) with
     | some d => d
     | none => []) hinv3 (by decide) (by decide)
  have hm : sent_records (some m4) = (mandatory_strings pr msg_id).map slot := by
    rw [hs4, hs3, hs2, hs1, sent_records_new]
    cases hd : problem_report_get_description pr <;> simp [mandatory_strings, hd]
  refine ⟨m4, hm, fun K problem_data dump_opts => ?_⟩
  unfold create_journal_message
  simp only [h1, h2, h3, h4]

/-! The dump modes compared: claims -/

/-- C19: on the same store, report and message-id the record list of mode
`NONE` begins the record list of mode `ESSENTIAL`, which has at most 11
records more and at most 18 records. -/
theorem none_records_begin_essential_records (K : libreport_h)
    (problem_data : problem_data_t) (pr : problem_report_t) (msg_id : Option CStr) :
    ∃ (mN mE : msg_content_t) (extra : List (Option iovec)),
      create_journal_message K problem_data pr msg_id DUMP_NONE = .ok (some mN)
      ∧ create_journal_message K problem_data pr msg_id DUMP_ESSENTIAL = .ok (some mE)
      ∧ sent_records (some mE) = sent_records (some mN) ++ extra
      ∧ extra.length ≤ 11
      ∧ msg_content_get_size (some mE) = msg_content_get_size (some mN) + extra.length
      ∧ msg_content_get_size (some mE) ≤ 18 := by
  obtain ⟨mN, hN, hinvN, hsN⟩ :=
    create_journal_message_spec K problem_data pr msg_id DUMP_NONE
  obtain ⟨mE, hE, hinvE, hsE⟩ :=
    create_journal_message_spec K problem_data pr msg_id DUMP_ESSENTIAL
  have hmN : mirrored_strings K problem_data DUMP_NONE
      = fields_strings problem_data (fields_default K) := by
    unfold mirrored_strings
    rw [if_pos DUMP_NONE_bits.1, if_neg DUMP_NONE_bits.2, List.append_nil]
  have hmE : mirrored_strings K problem_data DUMP_ESSENTIAL
      = fields_strings problem_data (fields_default K)
        ++ fields_strings problem_data (fields_essential K) := by
    unfold mirrored_strings
    rw [if_pos DUMP_ESSENTIAL_bits.1, if_pos DUMP_ESSENTIAL_bits.2]
  have hd : (fields_strings problem_data (fields_default K)).length ≤ 3 :=
    fields_strings_length_le problem_data (fields_default K)
  have he : (fields_strings problem_data (fields_essential K)).length ≤ 11 :=
    fields_strings_length_le problem_data (fields_essential K)
  have hlN := sent_records_length mN hinvN
  have hlE := sent_records_length mE hinvE
  rw [hmN] at hsN
  rw [hmE] at hsE
  have hcat : sent_records (some mE)
      = sent_records (some mN)
        ++ (fields_strings problem_data (fields_essential K)).map slot := by
    rw [hsE, hsN]
    simp only [List.map_append, List.append_assoc]
  refine ⟨mN, mE, (fields_strings problem_data (fields_essential K)).map slot,
    hN, hE, hcat, by simpa using he, ?_, ?_⟩
  · simp only [msg_content_get_size, ← hlN, ← hlE, hcat, List.length_append]
  · rw [hsE] at hlE
    simp only [msg_content_get_size, ← hlE, List.length_map, List.length_append,
      mandatory_strings, List.length_cons, List.length_nil]
    omega

/-- C20: `create_journal_message` reads `dump_opts` as a bit mask: with the
`DUMP_FULL` bit set the result is that of `DUMP_FULL`, with it clear and the
`DUMP_ESSENTIAL` bit set that of `DUMP_ESSENTIAL`, with both clear (0 included)
that of `DUMP_NONE`; after the mandatory records either the loops over the
field lists run or the loop over the store elements, never both. -/
theorem dump_opts_is_a_bit_mask (K : libreport_h) (problem_data : problem_data_t)
    (pr : problem_report_t) (msg_id : Option CStr) (dump_opts : Nat) :
    create_journal_message K problem_data pr msg_id dump_opts
      = create_journal_message K problem_data pr msg_id
          (if dump_opts &&& DUMP_FULL ≠ 0 then DUMP_FULL
           else if dump_opts &&& DUMP_ESSENTIAL ≠ 0 then DUMP_ESSENTIAL
           else DUMP_NONE)
    ∧ create_journal_message K problem_data pr msg_id 0
        = create_journal_message K problem_data pr msg_id DUMP_NONE
    ∧ create_journal_message K problem_data pr msg_id (DUMP_FULL ||| DUMP_ESSENTIAL ||| DUMP_NONE)
        = create_journal_message K problem_data pr msg_id DUMP_FULL
    ∧ ∃ m4 : msg_content_t,
        sent_records (some m4) = (mandatory_strings pr msg_id).map slot
        ∧ create_journal_message K problem_data pr msg_id dump_opts
          = if dump_opts &&& DUMP_FULL ≠ 0 then
              msg_content_add_elements K (some m4) problem_data
                (problem_data_get_all_elements problem_data)
            else
              match msg_content_add_fields (some m4) problem_data (fields_default K) with
              | .error e => .error e
              | .ok msg_c =>
                  if dump_opts &&& DUMP_ESSENTIAL ≠ 0 then
                    msg_content_add_fields msg_c problem_data (fields_essential K)
                  else .ok msg_c := by
  obtain ⟨m4, hm4, h⟩ := create_journal_message_after_mandatory_records pr msg_id
  have key : ∀ d1 d2 : Nat,
      (d1 &&& DUMP_FULL = 0 ↔ d2 &&& DUMP_FULL = 0) →
      (d1 &&& DUMP_ESSENTIAL ≠ 0 ↔ d2 &&& DUMP_ESSENTIAL ≠ 0) →
      create_journal_message K problem_data pr msg_id d1
        = create_journal_message K problem_data pr msg_id d2 := by
    intro d1 d2 hf he
    rw [h K problem_data d1, h K problem_data d2]
    by_cases h1 : d1 &&& DUMP_FULL = 0
    · rw [if_pos h1, if_pos (hf.1 h1)]
      by_cases h2 : d1 &&& DUMP_ESSENTIAL ≠ 0
      · simp only [if_pos h2, if_pos (he.1 h2)]
      · simp only [if_neg h2, if_neg (fun e => h2 (he.2 e))]
    · rw [if_neg h1, if_neg (fun e => h1 (hf.2 e))]
  refine ⟨?_, ?_, ?_, m4, hm4, ?_⟩
  · by_cases h1 : dump_opts &&& DUMP_FULL ≠ 0
    · rw [if_pos h1]
      rw [h K problem_data dump_opts, h K problem_data DUMP_FULL, if_neg h1,
        if_neg DUMP_FULL_bits]
    · rw [if_neg h1]
      have h1' : dump_opts &&& DUMP_FULL = 0 := not_not.1 h1
      by_cases h2 : dump_opts &&& DUMP_ESSENTIAL ≠ 0
      · rw [if_pos h2]
        exact key _ _ ⟨fun _ => DUMP_ESSENTIAL_bits.1, fun _ => h1'⟩
          ⟨fun _ => DUMP_ESSENTIAL_bits.2, fun _ => h2⟩
      · rw [if_neg h2]
        exact key _ _ ⟨fun _ => DUMP_NONE_bits.1, fun _ => h1'⟩
          ⟨fun e => absurd e h2, fun e => absurd e DUMP_NONE_bits.2⟩
  · exact key _ _ (by decide) (by decide)
  · rw [h K problem_data (DUMP_FULL ||| DUMP_ESSENTIAL ||| DUMP_NONE),
      h K problem_data DUMP_FULL, if_neg (by decide), if_neg DUMP_FULL_bits]
  · rw [h K problem_data dump_opts]
    by_cases h1 : dump_opts &&& DUMP_FULL = 0
    · rw [if_pos h1, if_neg (not_not.2 h1)]
    · rw [if_neg h1, if_pos h1]

end Journal
